import Mathlib

/-!
Verification of the formula-language engine of webapps-calculator
(src/webapp/calculator.js): tokenizer, precedence-climbing parser,
AST, reduction engine and formatter, with the default grammar
installed by addDefaultTypes / addDefaultLiterals /
addDefaultFunctions / addDefaultOperators (identity translation
function, no date library).

Strings from the JavaScript side are modelled as `List Char`;
JavaScript numbers are modelled as rationals (`Rat`).  The
continuation-passing reduce/resolve/reject shape of the source is
synchronous for the whole default grammar, so it is embedded in
direct style with `Except`; the invocation pattern of resolve and
reject inside `reduceAll` is additionally modelled exactly by an
instrumented variant (`reduceAllLog`) that records every call.
-/

/- The rational operations of the standard library are marked irreducible,
which blocks definitional evaluation of the embedding on concrete
formulas; restore the default reducibility inside this file. -/
attribute [local semireducible] Rat.add Rat.mul Rat.sub Rat.inv

/-- Whitespace as removed by the JavaScript trim calls. -/
def isWS (c : Char) : Bool := c = ' ' || c = '\t' || c = '\n' || c = '\r'

/-- Model of String.prototype.trim. -/
def jsTrim (l : List Char) : List Char :=
  ((l.dropWhile isWS).reverse.dropWhile isWS).reverse

/-- Model of String.prototype.toLowerCase (ASCII letters, which covers every
token of the default grammar). -/
def jsLower (l : List Char) : List Char := l.map Char.toLower

/-- Decimal digit character for a value below the base (lowercase letters for
bases above ten, as produced by Number.prototype.toString(base)). -/
def baseDigitChar (d : Nat) : Char :=
  if d < 10 then Char.ofNat (48 + d) else Char.ofNat (87 + d)

def natToBaseGo (base : Nat) : Nat → Nat → List Char → List Char
  | 0, _, acc => acc
  | fuel + 1, n, acc =>
    if n < base then baseDigitChar n :: acc
    else natToBaseGo base fuel (n / base) (baseDigitChar (n % base) :: acc)

/-- Render a natural number in the given base, most significant digit first. -/
def natToBaseChars (base n : Nat) : List Char := natToBaseGo base (n + 1) n []

def natToDecChars (n : Nat) : List Char := natToBaseChars 10 n

/-- Value of a list of decimal digits. -/
def digitsToNat (base : Nat) (l : List Char) : Nat :=
  l.foldl (fun a c => a * base + hexDigitVal c) 0
where
  hexDigitVal (c : Char) : Nat :=
    if c.isDigit then c.toNat - 48
    else if 'a' ≤ c && c ≤ 'f' then c.toNat - 87
    else if 'A' ≤ c && c ≤ 'F' then c.toNat - 55
    else 0

def isHexDigitChar (c : Char) : Bool :=
  c.isDigit || ('a' ≤ c && c ≤ 'f') || ('A' ≤ c && c ≤ 'F')

def isOctDigitChar (c : Char) : Bool := '0' ≤ c && c ≤ '7'

def isBinDigitChar (c : Char) : Bool := c = '0' || c = '1'

/-- Model of Math.round: round half toward positive infinity. -/
def jsRound (q : Rat) : Int := (q + 1 / 2).floor

/-- Truncation toward zero, as used by the ToInt32 conversion. -/
def jsTrunc (q : Rat) : Int := if q < 0 then q.ceil else q.floor

/-- ECMAScript ToInt32: truncate, reduce mod 2^32, reinterpret as signed. -/
def jsToInt32 (q : Rat) : Int :=
  let m : Int := (jsTrunc q) % (2 ^ 32)
  if m ≥ 2 ^ 31 then m - 2 ^ 32 else m

/-- ECMAScript ToUint32. -/
def jsToUint32 (q : Rat) : Nat := ((jsTrunc q) % (2 ^ 32)).toNat

/-- Two's-complement (32-bit) representation of an already-converted int32. -/
def int32Bits (i : Int) : Nat := (i % (2 ^ 32)).toNat

/-- Signed reading of a 32-bit pattern. -/
def bitsInt32 (n : Nat) : Int :=
  if n ≥ 2 ^ 31 then (n : Int) - 2 ^ 32 else (n : Int)

/-- Smallest k with 10^k a multiple of the denominator, when the denominator
only has factors 2 and 5 (the case of every value built by the verified
formulas). -/
def pow10For (den : Nat) : Option Nat :=
  (List.range 64).find? (fun k => 10 ^ k % den = 0)

/-- Model of Number.prototype.toString for the finite decimal fractions
handled by the embedding (shortest decimal form, as JavaScript prints
them). -/
def ratToChars (q : Rat) : List Char :=
  let sgn : List Char := if q < 0 then ['-'] else []
  let a := |q|
  match pow10For a.den with
  | some k =>
      let n := (a * (10 : Rat) ^ k).num.toNat
      let ip := n / 10 ^ k
      let fp := n % 10 ^ k
      if fp = 0 then sgn ++ natToDecChars ip
      else
        let d := natToDecChars fp
        sgn ++ natToDecChars ip ++ ['.'] ++ (List.replicate (k - d.length) '0' ++ d)
  | none => sgn ++ natToDecChars a.floor.toNat

/-- Model of Number.prototype.toFixed(0); exact on integers, which is the
only case the integer type formatter meets in the verified formulas. -/
def jsToFixed0 (q : Rat) : List Char :=
  let m := (|q| + 1 / 2).floor.toNat
  (if q < 0 && m ≠ 0 then ['-'] else []) ++ natToDecChars m

/-- The values flowing through the engine: JavaScript null, booleans,
numbers (kept as rationals) and strings. -/
inductive CalcValue where
  | vNull : CalcValue
  | vBool (b : Bool) : CalcValue
  | vNum (q : Rat) : CalcValue
  | vStr (s : List Char) : CalcValue
deriving DecidableEq, Repr

/-- Numeric reading of the digits of a decimal string (integer part,
optional fractional part); ECMAScript ToNumber on the strings the verified
formulas can produce. -/
def strToNumber (l : List Char) : Rat :=
  let t := jsTrim l
  if t = [] then 0
  else
    let (sgn, body) :=
      match t with
      | '-' :: r => ((-1 : Rat), r)
      | '+' :: r => ((1 : Rat), r)
      | r => ((1 : Rat), r)
    match body.splitOn '.' with
    | [ip] =>
        if ip ≠ [] && ip.all Char.isDigit then sgn * (digitsToNat 10 ip : Rat) else 0
    | [ip, fp] =>
        if ip.all Char.isDigit && fp.all Char.isDigit && (ip ≠ [] || fp ≠ []) then
          sgn * ((digitsToNat 10 ip : Rat) + (digitsToNat 10 fp : Rat) / (10 : Rat) ^ fp.length)
        else 0
    | _ => 0

/-- ECMAScript ToNumber (NaN-producing inputs do not occur in the verified
formulas and are mapped to 0). -/
def toNumber : CalcValue → Rat
  | .vNull => 0
  | .vBool b => if b then 1 else 0
  | .vNum q => q
  | .vStr s => strToNumber s

/-- ECMAScript ToString for the values of the model. -/
def toJsChars : CalcValue → List Char
  | .vNull => "null".toList
  | .vBool b => if b then "true".toList else "false".toList
  | .vNum q => ratToChars q
  | .vStr s => s

/-- ECMAScript ToBoolean. -/
def jsTruthy : CalcValue → Bool
  | .vNull => false
  | .vBool b => b
  | .vNum q => q ≠ 0
  | .vStr s => s ≠ []

/-- The + operator of JavaScript: string concatenation as soon as one side
is a string, numeric addition otherwise. -/
def jsAdd (a b : CalcValue) : CalcValue :=
  match a, b with
  | .vStr x, .vStr y => .vStr (x ++ y)
  | .vStr x, y => .vStr (x ++ toJsChars y)
  | x, .vStr y => .vStr (toJsChars x ++ y)
  | x, y => .vNum (toNumber x + toNumber y)

/-- Math.pow for the exponents met by the verified formulas (integral
exponents; fractional exponents would be irrational and are outside the
rational-value embedding). -/
def jsPow (a b : Rat) : Rat :=
  if b.den = 1 then
    if 0 ≤ b.num then a ^ b.num.toNat
    else (a ^ (-b.num).toNat)⁻¹
  else 0

/-- Exact square root when the operand is a square of a rational; the
prefix √ operator of the default grammar never meets another case in the
verified formulas. -/
def ratSqrt (q : Rat) : Rat :=
  (Nat.sqrt q.num.toNat : Rat) / (Nat.sqrt q.den : Rat)

/-- JavaScript % (remainder with the sign of the dividend); a zero divisor
would give NaN and is mapped to 0. -/
def jsModOp (a b : Rat) : Rat :=
  if b = 0 then 0 else a - b * (jsTrunc (a / b) : Rat)

/-- JavaScript / ; a zero divisor would give an infinity and is mapped to
the rational 0 (no verified formula divides by zero). -/
def jsDiv (a b : Rat) : Rat := if b = 0 then 0 else a / b

/-- Lexicographic comparison of strings, as the JavaScript relational
operators compare two strings. -/
def charListLt : List Char → List Char → Bool
  | [], [] => false
  | [], _ :: _ => true
  | _ :: _, [] => false
  | a :: x, b :: y => if a = b then charListLt x y else a < b

/-- The JavaScript < operator on values (string/string compares
lexicographically, anything else numerically). -/
def jsLt (a b : CalcValue) : Bool :=
  match a, b with
  | .vStr x, .vStr y => charListLt x y
  | x, y => toNumber x < toNumber y

def jsGt (a b : CalcValue) : Bool := jsLt b a

def jsLe (a b : CalcValue) : Bool := !jsLt b a

def jsGe (a b : CalcValue) : Bool := !jsLt a b

/-- The strict equality === of JavaScript on the modelled values. -/
def jsStrictEq (a b : CalcValue) : Bool := a = b

/-- The loose equality == of JavaScript on the modelled values (null is
loosely equal only to null; booleans and strings compare to numbers after
numeric conversion). -/
def jsLooseEq (a b : CalcValue) : Bool :=
  match a, b with
  | .vNull, .vNull => true
  | .vNull, _ => false
  | _, .vNull => false
  | .vStr x, .vStr y => x = y
  | x, y => toNumber x = toNumber y

/-! ## Value types (Calculator.prototype.addDefaultTypes, lang = identity,
no date library, so the date/time/datetime types are not registered). -/

/-- The value types registered by addDefaultTypes, in registration order. -/
inductive CalcType where
  | tNull | tBoolean | tString | tHex | tOctal | tBinary | tFloat | tInteger
deriving DecidableEq, Repr

/-- Replace the first occurrence of pat (String.prototype.replace with a
string pattern replaces only the first one). -/
def replFirst (pat repl : List Char) : List Char → List Char
  | [] => if pat = [] then repl else []
  | c :: t =>
    if pat.isPrefixOf (c :: t) then repl ++ (c :: t).drop pat.length
    else c :: replFirst pat repl t

/-- The parse function of the string type: a token of length at least two,
starting and ending with a quote; the quotes are stripped and the first
escaped quote is unescaped. -/
def stringTypeParse (tok : List Char) : Option (List Char) :=
  if 2 ≤ tok.length && tok.head? = some '"' && tok.getLast? = some '"' then
    some (replFirst ['\\', '"'] ['"'] ((tok.drop 1).dropLast))
  else none

/-- The format function of the string type: re-escape the first quote and
surround with quotes. -/
def stringTypeFormat (v : List Char) : List Char :=
  '"' :: (replFirst ['"'] ['\\', '"'] v ++ ['"'])

/-- The parse half of each registered type (undefined is modelled by
none). -/
def typeParse (t : CalcType) (tok : List Char) : Option CalcValue :=
  match t with
  | .tNull => if jsLower tok = "null".toList then some .vNull else none
  | .tBoolean =>
      if jsLower tok = "true".toList then some (.vBool true)
      else if jsLower tok = "false".toList then some (.vBool false)
      else none
  | .tString => (stringTypeParse tok).map .vStr
  | .tHex =>
      match tok with
      | '0' :: 'x' :: ds =>
          if ds ≠ [] && ds.all isHexDigitChar then some (.vNum (digitsToNat 16 ds : Rat))
          else none
      | _ => none
  | .tOctal =>
      match tok with
      | '0' :: 'o' :: ds =>
          if ds ≠ [] && ds.all isOctDigitChar then some (.vNum (digitsToNat 8 ds : Rat))
          else none
      | _ => none
  | .tBinary =>
      match tok with
      | '0' :: 'b' :: ds =>
          if ds ≠ [] && ds.all isBinDigitChar then some (.vNum (digitsToNat 2 ds : Rat))
          else none
      | _ => none
  | .tFloat =>
      match tok.splitOn '.' with
      | [ip, fp] =>
          if ip.all Char.isDigit && fp ≠ [] && fp.all Char.isDigit then
            some (.vNum ((digitsToNat 10 ip : Rat) + (digitsToNat 10 fp : Rat) / (10 : Rat) ^ fp.length))
          else none
      | _ => none
  | .tInteger =>
      if tok ≠ [] && tok.all Char.isDigit then some (.vNum (digitsToNat 10 tok : Rat))
      else none

/-- The format half of each registered type. -/
def typeFormat (t : CalcType) (v : CalcValue) : List Char :=
  match t with
  | .tNull => "null".toList
  | .tBoolean => if jsTruthy v then "true".toList else "false".toList
  | .tString =>
      stringTypeFormat (match v with
        | .vStr s => s
        | w => toJsChars w)
  | .tHex =>
      let q := toNumber v
      (if q < 0 then "-0x".toList else "0x".toList) ++ natToBaseChars 16 (jsTrunc |q|).toNat
  | .tOctal =>
      let q := toNumber v
      (if q < 0 then "-0o".toList else "0o".toList) ++ natToBaseChars 8 (jsTrunc |q|).toNat
  | .tBinary =>
      let q := toNumber v
      (if q < 0 then "-0b".toList else "0b".toList) ++ natToBaseChars 2 (jsTrunc |q|).toNat
  | .tFloat => ratToChars (toNumber v)
  | .tInteger => jsToFixed0 (toNumber v)

/-- Registration order of addDefaultTypes (null, boolean, string, then the
radix and numeric types; dates are absent without a date library). -/
def typesInOrder : List CalcType :=
  [.tNull, .tBoolean, .tString, .tHex, .tOctal, .tBinary, .tFloat, .tInteger]

/-- CalculatorParser.prototype.Literal tries each registered type in order
and keeps the first defined parse. -/
def typeParseAny (tok : List Char) : Option (CalcType × CalcValue) :=
  typesInOrder.firstM (fun t => (typeParse t tok).map (fun v => (t, v)))

/-! ## Literals (addDefaultLiterals): pi and e (float) and the mutable
variable mem (initially null).  The mem variable and its type live in the
evaluation state because the = operator writes both through the registry
entry. -/

/-- The literal entries of the default registry. -/
inductive CalcLit where
  | pi | e | mem
deriving DecidableEq, Repr

/-- Math.PI as the exact rational value of the IEEE double. -/
def piRat : Rat := (884279719003555 : Rat) / (281474976710656 : Rat)

/-- Math.E as the exact rational value of the IEEE double. -/
def eRat : Rat := (6121026514868073 : Rat) / (2251799813685248 : Rat)

/-- The mutable part of the engine: the mem variable (value and declared
type, both written by the = operator) and the invocation counter of the
side-effect probe function used by the short-circuit property. -/
structure CalcState where
  memValue : CalcValue := .vNull
  memType : CalcType := .tNull
  sideEffects : Nat := 0
deriving DecidableEq, Repr

def initState : CalcState := {}

def litToken : CalcLit → List Char
  | .pi => "pi".toList
  | .e => "e".toList
  | .mem => "mem".toList

/-- The type field of the literal entry (mutable for mem). -/
def litType (l : CalcLit) (s : CalcState) : CalcType :=
  match l with
  | .pi => .tFloat
  | .e => .tFloat
  | .mem => s.memType

/-- getValue of the literal entry. -/
def litGetValue (l : CalcLit) (s : CalcState) : CalcValue :=
  match l with
  | .pi => .vNum piRat
  | .e => .vNum eRat
  | .mem => s.memValue

/-- setValue of the literal entry: only mem was registered as editable, so
pi and e have no setter (calling it in JavaScript would throw). -/
def litSet (l : CalcLit) : Option (CalcValue → CalcState → CalcState) :=
  match l with
  | .pi => none
  | .e => none
  | .mem => some (fun v s => { s with memValue := v })

/-- Writing the type field of the literal entry, as the = operator does. -/
def litSetType (l : CalcLit) (t : CalcType) (s : CalcState) : CalcState :=
  match l with
  | .pi => s
  | .e => s
  | .mem => { s with memType := t }

def litOf (tok : List Char) : Option CalcLit :=
  if tok = "pi".toList then some .pi
  else if tok = "e".toList then some .e
  else if tok = "mem".toList then some .mem
  else none

/-! ## Operators and functions of the default grammar
(addDefaultOperators / addDefaultFunctions, lang = identity). -/

/-- Associativity of a binary operator. -/
inductive OpAssoc where
  | left | right
deriving DecidableEq, Repr

/-- The binary operators registered by addDefaultOperators, in registration
order. -/
inductive BinOp where
  | bComma | bAssign | bOr | bAnd | bNullish
  | bBitOr | bBitXor | bBitAnd
  | bStrictEq | bStrictNe | bLooseEq | bLooseNe
  | bLt | bGt | bLe | bGe | bElem
  | bShl | bShr | bUshr
  | bAdd | bSub | bMul | bDiv | bMod | bPow
deriving DecidableEq, Repr

/-- The prefix unary operators, in registration order. -/
inductive PreOp where
  | pSqrt | pNot | pBitNot | pPlus | pMinus | pInc | pDec
deriving DecidableEq, Repr

/-- The postfix unary operators, in registration order. -/
inductive PostOp where
  | sSquare | sCube | sInc | sDec | sFact
deriving DecidableEq, Repr

/-- The functions registered by addDefaultFunctions whose values stay inside
the rational model, the if function, and the side-effect probe function used
by the short-circuit property; every other registered Math-based function
(whose values are irrational reals) keeps only its token, carried by the
native constructor. -/
inductive CalcFunc where
  | fAbs | fCeil | fFloor | fRound | fPow | fMin | fMax | fIf | fSideEffect
  | fNative (name : List Char)
deriving DecidableEq, Repr

def binOpToken : BinOp → List Char
  | .bComma => ",".toList
  | .bAssign => "=".toList
  | .bOr => "||".toList
  | .bAnd => "&&".toList
  | .bNullish => "??".toList
  | .bBitOr => "|".toList
  | .bBitXor => "^".toList
  | .bBitAnd => "&".toList
  | .bStrictEq => "===".toList
  | .bStrictNe => "!==".toList
  | .bLooseEq => "==".toList
  | .bLooseNe => "!=".toList
  | .bLt => "<".toList
  | .bGt => ">".toList
  | .bLe => "<=".toList
  | .bGe => ">=".toList
  | .bElem => "∈".toList
  | .bShl => "<<".toList
  | .bShr => ">>".toList
  | .bUshr => ">>>".toList
  | .bAdd => "+".toList
  | .bSub => "-".toList
  | .bMul => "*".toList
  | .bDiv => "/".toList
  | .bMod => "%".toList
  | .bPow => "**".toList

/-- Precedence table built by the running precedence counter of
addDefaultOperators. -/
def binOpPrecedence : BinOp → Nat
  | .bComma => 0
  | .bAssign => 1
  | .bOr => 3
  | .bAnd => 4
  | .bNullish => 5
  | .bBitOr => 6
  | .bBitXor => 7
  | .bBitAnd => 8
  | .bStrictEq => 9
  | .bStrictNe => 9
  | .bLooseEq => 9
  | .bLooseNe => 9
  | .bLt => 10
  | .bGt => 10
  | .bLe => 10
  | .bGe => 10
  | .bElem => 10
  | .bShl => 11
  | .bShr => 11
  | .bUshr => 11
  | .bAdd => 12
  | .bSub => 12
  | .bMul => 13
  | .bDiv => 13
  | .bMod => 13
  | .bPow => 14

/-- Every default binary operator is left-associative except = and **. -/
def binOpAssoc : BinOp → OpAssoc
  | .bAssign => .right
  | .bPow => .right
  | _ => .left

def preOpToken : PreOp → List Char
  | .pSqrt => "√".toList
  | .pNot => "!".toList
  | .pBitNot => "~".toList
  | .pPlus => "+".toList
  | .pMinus => "-".toList
  | .pInc => "++".toList
  | .pDec => "--".toList

/-- All prefix operators are registered at the same precedence level (15). -/
def preOpPrecedence : PreOp → Nat := fun _ => 15

def postOpToken : PostOp → List Char
  | .sSquare => "²".toList
  | .sCube => "³".toList
  | .sInc => "++".toList
  | .sDec => "--".toList
  | .sFact => "!".toList

/-- Lookup in the binaryOperators map (keys are the lower-cased tokens). -/
def binOpOf (tok : List Char) : Option BinOp :=
  [BinOp.bComma, .bAssign, .bOr, .bAnd, .bNullish, .bBitOr, .bBitXor, .bBitAnd,
   .bStrictEq, .bStrictNe, .bLooseEq, .bLooseNe, .bLt, .bGt, .bLe, .bGe,
   .bElem, .bShl, .bShr, .bUshr, .bAdd, .bSub, .bMul, .bDiv, .bMod,
   .bPow].find? (fun op => binOpToken op = tok)

/-- Lookup in the prefixOperators map. -/
def preOpOf (tok : List Char) : Option PreOp :=
  [PreOp.pSqrt, .pNot, .pBitNot, .pPlus, .pMinus, .pInc, .pDec].find?
    (fun op => preOpToken op = tok)

/-- Lookup in the postfixOperators map. -/
def postOpOf (tok : List Char) : Option PostOp :=
  [PostOp.sSquare, .sCube, .sInc, .sDec, .sFact].find?
    (fun op => postOpToken op = tok)

/-- Lookup in the functions map (keys are lower-cased function names). -/
def funcOf (tok : List Char) : Option CalcFunc :=
  if tok = "abs".toList then some .fAbs
  else if tok = "ceil".toList then some .fCeil
  else if tok = "floor".toList then some .fFloor
  else if tok = "round".toList then some .fRound
  else if tok = "pow".toList then some .fPow
  else if tok = "min".toList then some .fMin
  else if tok = "max".toList then some .fMax
  else if tok = "if".toList then some .fIf
  else if tok = "sideeffect".toList then some .fSideEffect
  else if ["random".toList, "cos".toList, "sin".toList, "tan".toList,
           "acos".toList, "asin".toList, "atan".toList, "exp".toList,
           "log".toList, "sqrt".toList, "atan2".toList,
           "cbrt".toList].contains tok then
    some (.fNative tok)
  else none

/-- The separator list built by the CalculatorParser constructor: brackets
and space first, then every prefix, postfix and binary operator token in
for-in (insertion) order. -/
def calcSeparators : List (List Char) :=
  ["(".toList, ")".toList, "[".toList, "]".toList, " ".toList] ++
  ["√".toList, "!".toList, "~".toList, "+".toList, "-".toList, "++".toList, "--".toList] ++
  ["²".toList, "³".toList, "++".toList, "--".toList, "!".toList] ++
  [",".toList, "=".toList, "||".toList, "&&".toList, "??".toList, "|".toList,
   "^".toList, "&".toList, "===".toList, "!==".toList, "==".toList, "!=".toList,
   "<".toList, ">".toList, "<=".toList, ">=".toList, "∈".toList,
   "<<".toList, ">>".toList, ">>>".toList, "+".toList, "-".toList,
   "*".toList, "/".toList, "%".toList, "**".toList]

/-! ## The AST (CalculatorTree). -/

/-- The kind-tagged AST of the engine.  The token fields keep the original
formula text where the source keeps it (undefined is none).  The invalid
constructor stands for a CalculatorTree whose kind string is none of the
eight known tags, which the reducer rejects ("Invalid tree node kind"). -/
inductive CalculatorTree where
  | constant (type : CalcType) (value : CalcValue) (token : Option (List Char))
  | literal (source : CalcLit) (token : Option (List Char))
  | array (params : List CalculatorTree)
  | grouping (left : CalculatorTree)
  | binary (source : BinOp) (left : CalculatorTree) (right : CalculatorTree) (token : Option (List Char))
  | pre (source : PreOp) (right : CalculatorTree) (token : Option (List Char))
  | post (source : PostOp) (left : CalculatorTree) (token : Option (List Char))
  | func (source : CalcFunc) (params : List CalculatorTree) (token : Option (List Char))
  | invalid (kind : List Char)

/-- CalculatorTree.prototype.isValue: a constant, or a literal that is not
flagged notResolved (none of the three default literals carries that
flag). -/
def CalculatorTree.isValue : CalculatorTree → Bool
  | .constant _ _ _ => true
  | .literal _ _ => true
  | _ => false

/-- CalculatorTree.prototype.getValue; on any other node kind the source
would crash, and the engine only calls it on value nodes. -/
def treeGetValue (t : CalculatorTree) (s : CalcState) : CalcValue :=
  match t with
  | .constant _ v _ => v
  | .literal l _ => litGetValue l s
  | _ => .vNull

/-- CalculatorTree.prototype.getType; same proviso as treeGetValue. -/
def treeGetType (t : CalculatorTree) (s : CalcState) : CalcType :=
  match t with
  | .constant ty _ _ => ty
  | .literal l _ => litType l s
  | _ => .tNull

/-! ## Tokenizer (CalculatorParser.prototype.next / consume / expect). -/

/-- Structured parse error (CalculatorError): formula, index, optional
token length and the untranslated message key. -/
structure CalcError where
  formula : List Char
  index : Nat
  length : Nat
  message : String
deriving DecidableEq, Repr

/-- First index at which the needle occurs in the haystack
(String.prototype.indexOf with fromIndex 0, -1 becoming none). -/
def firstOcc (needle : List Char) : List Char → Option Nat
  | [] => if needle = [] then some 0 else none
  | c :: t =>
    if needle.isPrefixOf (c :: t) then some 0
    else (firstOcc needle t).map (· + 1)

/-- String.prototype.indexOf(needle, start). -/
def indexOfFrom (needle hay : List Char) (start : Nat) : Option Nat :=
  (firstOcc needle (hay.drop start)).map (· + start)

/-- One step of the separator scan of next(): candidate is the first
occurrence of this separator; an earlier occurrence wins, and on a tie the
longer separator wins (index === -1 || index > p, else index === p with
Math.max on the length). -/
def scanStep (hay : List Char) (start : Nat) (acc : Option (Nat × Nat))
    (sep : List Char) : Option (Nat × Nat) :=
  match indexOfFrom sep hay start with
  | none => acc
  | some p =>
    match acc with
    | none => some (p, sep.length)
    | some (i, l) =>
      if i > p then some (p, sep.length)
      else if i = p then some (i, max l sep.length)
      else some (i, l)

/-- The full separator scan of next(): earliest occurrence at or after
start, with the length of the longest separator at that position. -/
def scanSeps (seps : List (List Char)) (hay : List Char) (start : Nat) :
    Option (Nat × Nat) :=
  seps.foldl (scanStep hay start) none

/-- The scan for the closing quote of a string token: offset of the first
quote that is not directly preceded by a backslash (the loop with the
previous variable); none when the string never closes. -/
def strScanLen : List Char → Option Char → Option Nat
  | [], _ => none
  | c :: rest, prev =>
    if c = '"' && prev ≠ some '\\' then some 0
    else (strScanLen rest (some c)).map (· + 1)

/-- Parser state: the trimmed formula and the current index. -/
structure PState where
  formula : List Char
  index : Nat
deriving DecidableEq, Repr

/-- next(): returns the next token without consuming it.  Past the end is
an error; exactly at the end is the empty sentinel token; a quote opens a
string token; otherwise the separator scan decides. -/
def pNext (st : PState) : Except CalcError (List Char) :=
  if st.index > st.formula.length then
    .error ⟨st.formula, st.index, 0, "End of formula has been reached"⟩
  else if st.index = st.formula.length then
    .ok []
  else
    let rest := st.formula.drop st.index
    if rest.head? = some '"' then
      match strScanLen (rest.drop 1) none with
      | none =>
          .error ⟨st.formula, st.index, st.formula.length - st.index,
                  "Un-terminated string started at position %0"⟩
      | some k => .ok (rest.take (k + 2))
    else
      match scanSeps calcSeparators st.formula st.index with
      | none => .ok rest
      | some (i, l) =>
          if i = st.index then .ok (rest.take l)
          else .ok (jsTrim (rest.take (i - st.index)))

/-- The run of spaces starting the list (consume() skips them after moving
past the token). -/
def spaceRun : List Char → Nat
  | ' ' :: t => spaceRun t + 1
  | _ => 0

/-- consume(text): advance by the token length, then skip following
spaces. -/
def pConsume (st : PState) (text : List Char) : PState :=
  let j := st.index + text.length
  { st with index := j + spaceRun (st.formula.drop j) }

/-- expect(text): consume the next token if it matches, otherwise fail with
the UnexpectedToken message. -/
def pExpect (st : PState) (text : List Char) : Except CalcError PState := do
  let s ← pNext st
  if s = text then pure (pConsume st s)
  else .error ⟨st.formula, st.index, s.length,
               "Found \"%1\" but expecting \"%2\" at position %0"⟩

/-- CalculatorParser.prototype.Literal: reject function names and
separators, then try the literals map, then each type in order. -/
def pLiteral (st : PState) (token : List Char) : Except CalcError CalculatorTree :=
  let tokenLC := jsLower token
  if (funcOf tokenLC).isSome || calcSeparators.contains tokenLC then
    .error ⟨st.formula, st.index, token.length,
            "Expecting a value but found \"%1\" at position %0"⟩
  else
    match litOf tokenLC with
    | some l => .ok (.literal l (some token))
    | none =>
      match typeParseAny token with
      | some (ty, v) => .ok (.constant ty v (some token))
      | none =>
          .error ⟨st.formula, st.index, token.length,
                  "Expecting a value but found \"%1\" at position %0"⟩

/-- Flattening of a comma chain into an argument list, as the add helper of
CalculatorParser.prototype.Array does (the test is on the token field being
the comma text, exactly as in the source). -/
def flattenCommas : CalculatorTree → List CalculatorTree
  | .binary op l r tok =>
      if tok = some [','] then flattenCommas l ++ [r]
      else [.binary op l r tok]
  | t => [t]

/-- Error used when the parser fuel runs out; with the fuel chosen by
calcParse it is unreachable, since every recursive call follows the
consumption of at least one character. -/
def fuelError (st : PState) : CalcError :=
  ⟨st.formula, st.index, 0, "parser fuel exhausted"⟩

mutual

/-- Exp(p): a Primary followed by the binary-operator loop and then the
postfix-operator loop. -/
def pExp : Nat → Nat → PState → Except CalcError (CalculatorTree × PState)
  | 0, _, st => .error (fuelError st)
  | f + 1, p, st => do
      let (t, st1) ← pPrimary f st
      pBinLoop f p t st1

/-- The while loop over binary operators with precedence at least p; on
exit, control falls through to the postfix loop. -/
def pBinLoop : Nat → Nat → CalculatorTree → PState → Except CalcError (CalculatorTree × PState)
  | 0, _, _, st => .error (fuelError st)
  | f + 1, p, tree, st => do
      let token ← pNext st
      let tl := jsLower token
      match binOpOf tl with
      | some op =>
          if binOpPrecedence op ≥ p then do
            let st1 := pConsume st tl
            let q := match binOpAssoc op with
              | .left => binOpPrecedence op + 1
              | .right => binOpPrecedence op
            let (right, st2) ← pExp f q st1
            pBinLoop f p (.binary op tree right (some tl)) st2
          else pPostLoop f tree st
      | none => pPostLoop f tree st

/-- The while loop over postfix operators. -/
def pPostLoop : Nat → CalculatorTree → PState → Except CalcError (CalculatorTree × PState)
  | 0, _, st => .error (fuelError st)
  | f + 1, tree, st => do
      let token ← pNext st
      let tl := jsLower token
      match postOpOf tl with
      | some op => pPostLoop f (.post op tree (some tl)) (pConsume st tl)
      | none => .ok (tree, st)

/-- Primary(): prefix operator, parenthesised group, bracketed array,
function call, or literal. -/
def pPrimary : Nat → PState → Except CalcError (CalculatorTree × PState)
  | 0, st => .error (fuelError st)
  | f + 1, st => do
      let token ← pNext st
      let tokenLC := jsLower token
      match preOpOf tokenLC with
      | some op => do
          let st1 := pConsume st token
          let (right, st2) ← pExp f (preOpPrecedence op) st1
          pure (.pre op right (some tokenLC), st2)
      | none =>
        if token = ['('] then do
          let st1 := pConsume st token
          let (t, st2) ← pExp f 0 st1
          let st3 ← pExpect st2 [')']
          pure (.grouping t, st3)
        else if token = ['['] then do
          let st1 := pConsume st token
          let (ps, st2) ← pArray f [']'] st1
          pure (.array ps, st2)
        else
          match funcOf tokenLC with
          | some fn => do
              let st1 := pConsume st token
              let st2 ← pExpect st1 ['(']
              let (ps, st3) ← pArray f [')'] st2
              pure (.func fn ps (some token), st3)
          | none => do
              let t ← pLiteral st token
              pure (t, pConsume st token)

/-- Array(lastToken): empty list, or one expression at precedence 0 whose
comma chain is flattened. -/
def pArray : Nat → List Char → PState → Except CalcError (List CalculatorTree × PState)
  | 0, _, st => .error (fuelError st)
  | f + 1, lastToken, st => do
      let token ← pNext st
      if token = lastToken then
        pure ([], pConsume st token)
      else do
        let (t, st1) ← pExp f 0 st
        let st2 ← pExpect st1 lastToken
        pure (flattenCommas t, st2)

end

/-- Calculator.prototype.parse: trim the formula, parse an expression at
precedence 0 and require the end of the token stream.  The fuel bounds the
call depth of the recursive descent and is large enough for every formula
of that length. -/
def calcParse (formula : String) : Except CalcError CalculatorTree := do
  let chars := jsTrim formula.toList
  let st : PState := ⟨chars, 0⟩
  let (t, st1) ← pExp ((chars.length + 4) * 8) 0 st
  let _ ← pExpect st1 []
  pure t

/-! ## Formatter (Calculator.prototype.format). -/

/-- Array.prototype.join with the comma-space separator used by format. -/
def joinComma : List (List Char) → List Char
  | [] => []
  | [x] => x
  | x :: y :: ts => x ++ [',', ' '] ++ joinComma (y :: ts)

mutual

/-- format(tree): constants through their type formatter, literals through
their kept token, arrays bracketed, groupings parenthesised, binary with
spaces around the token, prefix and postfix without spaces, functions with
a parenthesised argument list. -/
def formatT : CalculatorTree → List Char
  | .constant ty v _ => typeFormat ty v
  | .literal l tok => tok.getD (litToken l)
  | .array ps => '[' :: (joinComma (formatList ps) ++ [']'])
  | .grouping l => '(' :: (formatT l ++ [')'])
  | .binary op l r tok =>
      formatT l ++ [' '] ++ tok.getD (binOpToken op) ++ [' '] ++ formatT r
  | .pre op r tok => tok.getD (preOpToken op) ++ formatT r
  | .post op l tok => formatT l ++ tok.getD (postOpToken op)
  | .func fn ps tok =>
      tok.getD (match fn with | .fNative n => n | _ => []) ++
        ('(' :: (joinComma (formatList ps) ++ [')']))
  | .invalid _ => []
termination_by structural t => t

def formatList : List CalculatorTree → List (List Char)
  | [] => []
  | t :: ts => formatT t :: formatList ts
termination_by structural ts => ts

end

mutual

/-- Structural equivalence of two ASTs: same shape, same sources, same
constant types and values; the token fields (original spelling) are
ignored, which is the "not necessarily textually identical" reading of the
round-trip property. -/
def structEq : CalculatorTree → CalculatorTree → Bool
  | .constant ty v _, .constant ty2 v2 _ => ty = ty2 && v = v2
  | .literal l _, .literal l2 _ => l = l2
  | .array ps, .array ps2 => structEqList ps ps2
  | .grouping l, .grouping l2 => structEq l l2
  | .binary op l r _, .binary op2 l2 r2 _ => op = op2 && structEq l l2 && structEq r r2
  | .pre op r _, .pre op2 r2 _ => op = op2 && structEq r r2
  | .post op l _, .post op2 l2 _ => op = op2 && structEq l l2
  | .func fn ps _, .func fn2 ps2 _ => fn = fn2 && structEqList ps ps2
  | .invalid k, .invalid k2 => k = k2
  | _, _ => false

def structEqList : List CalculatorTree → List CalculatorTree → Bool
  | [], [] => true
  | t :: ts, u :: us => structEq t u && structEqList ts us
  | _, _ => false

end

/-! ## Reduction engine (CalculatorContext.prototype.reduce / reduceAll and
the operator and function reduce procedures).  All default reductions are
synchronous, so the resolve/reject continuations are embedded in direct
style with Except; reject carries the message string. -/

/-- The iterative factorial loop of the postfix ! operator
(result = 1; v = Math.round(a); while (v !== 0) result *= v--), with
explicit fuel: none means the fuel was not enough, and for a negative v no
fuel is ever enough. -/
def factLoop : Nat → Rat → Int → Option Rat
  | 0, _, _ => none
  | f + 1, r, v => if v = 0 then some r else factLoop f (r * (v : Rat)) (v - 1)

/-- Bitwise | of JavaScript (both sides through ToInt32). -/
def jsBitOr (x y : Rat) : Rat :=
  (bitsInt32 ((int32Bits (jsToInt32 x)).lor (int32Bits (jsToInt32 y))) : Rat)

/-- Bitwise ^ of JavaScript. -/
def jsBitXor (x y : Rat) : Rat :=
  (bitsInt32 ((int32Bits (jsToInt32 x)).xor (int32Bits (jsToInt32 y))) : Rat)

/-- Bitwise & of JavaScript. -/
def jsBitAnd (x y : Rat) : Rat :=
  (bitsInt32 ((int32Bits (jsToInt32 x)).land (int32Bits (jsToInt32 y))) : Rat)

/-- << of JavaScript: shift the int32 left by the count mod 32. -/
def jsShl (x y : Rat) : Rat :=
  (bitsInt32 ((int32Bits (jsToInt32 x) <<< (jsToUint32 y % 32)) % 2 ^ 32) : Rat)

/-- >> of JavaScript: arithmetic (sign-preserving) right shift. -/
def jsShr (x y : Rat) : Rat :=
  ((Int.fdiv (jsToInt32 x) (2 ^ (jsToUint32 y % 32))) : Rat)

/-- >>> of JavaScript: zero-filling right shift on the unsigned pattern. -/
def jsUshr (x y : Rat) : Rat :=
  ((int32Bits (jsToInt32 x) >>> (jsToUint32 y % 32)) : Rat)

/-- The calculate procedure of the binary operators that use the default
reduce recipe, applied to two value nodes; returns the resolved constant. -/
def calcBinary (op : BinOp) (a b : CalculatorTree) (s : CalcState) :
    Except String (CalculatorTree × CalcState) :=
  let x := treeGetValue a s
  let y := treeGetValue b s
  match op with
  | .bBitOr => .ok (.constant .tBinary (.vNum (jsBitOr (toNumber x) (toNumber y))) none, s)
  | .bBitXor => .ok (.constant .tBinary (.vNum (jsBitXor (toNumber x) (toNumber y))) none, s)
  | .bBitAnd => .ok (.constant .tBinary (.vNum (jsBitAnd (toNumber x) (toNumber y))) none, s)
  | .bStrictEq => .ok (.constant .tBoolean (.vBool (jsStrictEq x y)) none, s)
  | .bStrictNe => .ok (.constant .tBoolean (.vBool (!jsStrictEq x y)) none, s)
  | .bLooseEq => .ok (.constant .tBoolean (.vBool (jsLooseEq x y)) none, s)
  | .bLooseNe => .ok (.constant .tBoolean (.vBool (!jsLooseEq x y)) none, s)
  | .bLt => .ok (.constant .tBoolean (.vBool (jsLt x y)) none, s)
  | .bGt => .ok (.constant .tBoolean (.vBool (jsGt x y)) none, s)
  | .bLe => .ok (.constant .tBoolean (.vBool (jsLe x y)) none, s)
  | .bGe => .ok (.constant .tBoolean (.vBool (jsGe x y)) none, s)
  | .bShl => .ok (.constant .tInteger (.vNum (jsShl (toNumber x) (toNumber y))) none, s)
  | .bShr => .ok (.constant .tInteger (.vNum (jsShr (toNumber x) (toNumber y))) none, s)
  | .bUshr => .ok (.constant .tInteger (.vNum (jsUshr (toNumber x) (toNumber y))) none, s)
  | .bAdd =>
      let v := jsAdd x y
      let ty : CalcType := match v with | .vStr _ => .tString | _ => .tFloat
      .ok (.constant ty v none, s)
  | .bSub => .ok (.constant .tFloat (.vNum (toNumber x - toNumber y)) none, s)
  | .bMul => .ok (.constant .tFloat (.vNum (toNumber x * toNumber y)) none, s)
  | .bDiv => .ok (.constant .tFloat (.vNum (jsDiv (toNumber x) (toNumber y))) none, s)
  | .bMod => .ok (.constant .tFloat (.vNum (jsModOp (toNumber x) (toNumber y))) none, s)
  | .bPow => .ok (.constant .tFloat (.vNum (jsPow (toNumber x) (toNumber y))) none, s)
  | _ => .error "calcBinary applied to an operator with a custom reduce"

/-- The calculate procedure of the default prefix operators, applied to a
value node.  The unary helper of the source passes the declared result type
or falls back to the operand type. -/
def calcPre (op : PreOp) (res : CalculatorTree) (s : CalcState) :
    Except String (CalculatorTree × CalcState) :=
  let v := treeGetValue res s
  match op with
  | .pSqrt => .ok (.constant .tFloat (.vNum (ratSqrt (toNumber v))) none, s)
  | .pNot => .ok (.constant .tBoolean (.vBool (!jsTruthy v)) none, s)
  | .pBitNot =>
      .ok (.constant (treeGetType res s) (.vNum ((-(jsToInt32 (toNumber v)) - 1 : Int) : Rat)) none, s)
  | .pPlus => .ok (.constant (treeGetType res s) (.vNum (toNumber v)) none, s)
  | .pMinus => .ok (.constant (treeGetType res s) (.vNum (-(toNumber v))) none, s)
  | _ => .error "calcPre applied to an operator with a custom reduce"

/-- The calculate procedure of the default postfix operators, applied to a
value node.  For the factorial the fuel given to the loop is sufficient
exactly when the rounded operand is non-negative; the error on the other
side models the non-terminating while loop of the source. -/
def calcPost (op : PostOp) (res : CalculatorTree) (s : CalcState) :
    Except String (CalculatorTree × CalcState) :=
  let v := treeGetValue res s
  match op with
  | .sSquare => .ok (.constant (treeGetType res s) (.vNum (jsPow (toNumber v) 2)) none, s)
  | .sCube => .ok (.constant (treeGetType res s) (.vNum (jsPow (toNumber v) 3)) none, s)
  | .sFact =>
      let v0 := jsRound (toNumber v)
      match factLoop (v0.toNat + 1) 1 v0 with
      | some r => .ok (.constant .tInteger (.vNum r) none, s)
      | none => .error "postfix factorial loop never terminates on a negative operand"
  | _ => .error "calcPost applied to an operator with a custom reduce"

/-- The calculate procedure of the Math-based functions that stay inside
the rational model (abs, ceil, floor, round, pow, min, max), applied to
value nodes. -/
def calcFunc (fn : CalcFunc) (vs : List CalculatorTree) (s : CalcState) :
    Except String (CalculatorTree × CalcState) :=
  match fn, vs with
  | .fAbs, [a] =>
      .ok (.constant (treeGetType a s) (.vNum |toNumber (treeGetValue a s)|) none, s)
  | .fCeil, [a] =>
      .ok (.constant .tInteger (.vNum ((toNumber (treeGetValue a s)).ceil : Rat)) none, s)
  | .fFloor, [a] =>
      .ok (.constant .tInteger (.vNum ((toNumber (treeGetValue a s)).floor : Rat)) none, s)
  | .fRound, [a] =>
      .ok (.constant .tInteger (.vNum ((jsRound (toNumber (treeGetValue a s))) : Rat)) none, s)
  | .fPow, [a, b] =>
      .ok (.constant .tFloat
            (.vNum (jsPow (toNumber (treeGetValue a s)) (toNumber (treeGetValue b s)))) none, s)
  | .fMin, a :: rest =>
      let ty : CalcType :=
        if (a :: rest).any (fun p => treeGetType p s = .tFloat) then .tFloat else .tInteger
      let q := rest.foldl (fun acc p => min acc (toNumber (treeGetValue p s)))
        (toNumber (treeGetValue a s))
      .ok (.constant ty (.vNum q) none, s)
  | .fMax, a :: rest =>
      let ty : CalcType :=
        if (a :: rest).any (fun p => treeGetType p s = .tFloat) then .tFloat else .tInteger
      let q := rest.foldl (fun acc p => max acc (toNumber (treeGetValue p s)))
        (toNumber (treeGetValue a s))
      .ok (.constant ty (.vNum q) none, s)
  | _, _ => .error "Math function applied outside the modelled cases"

mutual

/-- CalculatorContext.prototype.reduce in direct style, with fuel bounding
the recursion depth (calcReduce always supplies enough). -/
def reduceT : Nat → CalculatorTree → CalcState → Except String (CalculatorTree × CalcState)
  | 0, _, _ => .error "reduce fuel exhausted"
  | f + 1, t, s =>
    match t with
    | .constant _ _ _ => .ok (t, s)
    | .literal l _ => .ok (.constant (litType l s) (litGetValue l s) none, s)
    | .array ps => do
        let (vs, s1) ← reduceList f ps s
        .ok (.array vs, s1)
    | .grouping l => do
        let (r, s1) ← reduceT f l s
        match r with
        | .constant _ _ _ => .ok (r, s1)
        | _ => .ok (.grouping r, s1)
    | .binary op l r _ => reduceBin f op l r s
    | .pre op r _ => reducePre f op r s
    | .post op l _ => reducePost f op l s
    | .func fn ps _ => reduceFunc f fn ps s
    | .invalid k => .error ("Invalid tree node kind " ++ String.mk k)

/-- Sequential reduction of a parameter list (the resolve path of
reduceAll; the exact resolve/reject invocation pattern on failures is
modelled separately by reduceAllLog). -/
def reduceList : Nat → List CalculatorTree → CalcState → Except String (List CalculatorTree × CalcState)
  | 0, _, _ => .error "reduce fuel exhausted"
  | _ + 1, [], s => .ok ([], s)
  | f + 1, p :: ps, s => do
      let (v, s1) ← reduceT f p s
      let (vs, s2) ← reduceList f ps s1
      .ok (v :: vs, s2)

/-- The reduce procedures of the binary operators: comma builds an array,
assignment writes through the setter when the right side is a value, the
logical operators short-circuit, everything else uses the default recipe. -/
def reduceBin : Nat → BinOp → CalculatorTree → CalculatorTree → CalcState →
    Except String (CalculatorTree × CalcState)
  | 0, _, _, _, _ => .error "reduce fuel exhausted"
  | f + 1, op, l, r, s =>
    match op with
    | .bComma => do
        let (vs, s1) ← reduceList f [l, r] s
        .ok (.array vs, s1)
    | .bAssign => do
        let (bv, s1) ← reduceT f r s
        if bv.isValue then
          match l with
          | .literal lit _ =>
              match litSet lit with
              | some setter =>
                  let s2 := setter (treeGetValue bv s1) s1
                  let s3 := litSetType lit (treeGetType bv s2) s2
                  .ok (bv, s3)
              | none => .error "TypeError: setValue is not a function"
          | _ => .error "TypeError: cannot read source of the assignment target"
        else .ok (bv, s1)
    | .bOr => do
        let (a, s1) ← reduceT f l s
        if a.isValue && jsTruthy (treeGetValue a s1) then .ok (a, s1)
        else do
          let (b, s2) ← reduceT f r s1
          if b.isValue && jsTruthy (treeGetValue b s2) then .ok (b, s2)
          else .ok (if a.isValue then b else if b.isValue then a
                    else .binary .bOr a b none, s2)
    | .bAnd => do
        let (a, s1) ← reduceT f l s
        if a.isValue && !jsTruthy (treeGetValue a s1) then .ok (a, s1)
        else do
          let (b, s2) ← reduceT f r s1
          if b.isValue && !jsTruthy (treeGetValue b s2) then .ok (b, s2)
          else .ok (if a.isValue then b else if b.isValue then a
                    else .binary .bAnd a b none, s2)
    | .bNullish => do
        let (a, s1) ← reduceT f l s
        if a.isValue && treeGetValue a s1 ≠ .vNull then .ok (a, s1)
        else do
          let (b, s2) ← reduceT f r s1
          if a.isValue then .ok (b, s2)
          else .ok (.binary .bNullish a b none, s2)
    | .bElem => do
        let (vs, s1) ← reduceList f [l, r] s
        match vs with
        | [ra, rb] =>
            if ra.isValue then
              match rb with
              | .array ps =>
                  let value := treeGetValue ra s1
                  if ps.any (fun p => p.isValue && jsStrictEq (treeGetValue p s1) value) then
                    .ok (.constant .tBoolean (.vBool true) none, s1)
                  else if ps.any (fun p => !p.isValue) then
                    .ok (.binary .bElem ra rb none, s1)
                  else
                    .ok (.constant .tBoolean (.vBool false) none, s1)
              | _ => .error "TypeError: cannot read params of the right operand of the membership operator"
            else .ok (.binary .bElem ra rb none, s1)
        | _ => .error "reduceAll changed the arity"
    | _ => do
        let (vs, s1) ← reduceList f [l, r] s
        match vs with
        | [a, b] =>
            if a.isValue && b.isValue then calcBinary op a b s1
            else .ok (.binary op a b none, s1)
        | _ => .error "reduceAll changed the arity"

/-- The reduce procedures of the prefix operators: ++ and -- write through
the literal setter; the rest use the default prefix recipe. -/
def reducePre : Nat → PreOp → CalculatorTree → CalcState →
    Except String (CalculatorTree × CalcState)
  | 0, _, _, _ => .error "reduce fuel exhausted"
  | f + 1, op, r, s =>
    match op with
    | .pInc =>
        match r with
        | .literal lit _ =>
            match litSet lit with
            | some setter =>
                let ty := litType lit s
                let newVal := jsAdd (litGetValue lit s) (.vNum 1)
                .ok (.constant ty newVal none, setter newVal s)
            | none => .error "TypeError: setValue is not a function"
        | _ => .error "TypeError: cannot read source of the increment operand"
    | .pDec =>
        match r with
        | .literal lit _ =>
            match litSet lit with
            | some setter =>
                let ty := litType lit s
                let newVal : CalcValue := .vNum (toNumber (litGetValue lit s) - 1)
                .ok (.constant ty newVal none, setter newVal s)
            | none => .error "TypeError: setValue is not a function"
        | _ => .error "TypeError: cannot read source of the decrement operand"
    | _ => do
        let (res, s1) ← reduceT f r s
        if res.isValue then calcPre op res s1
        else .ok (.pre op res none, s1)

/-- The reduce procedures of the postfix operators: ++ and -- return the
old value and write the stepped one; the rest use the default postfix
recipe. -/
def reducePost : Nat → PostOp → CalculatorTree → CalcState →
    Except String (CalculatorTree × CalcState)
  | 0, _, _, _ => .error "reduce fuel exhausted"
  | f + 1, op, l, s =>
    match op with
    | .sInc =>
        match l with
        | .literal lit _ =>
            match litSet lit with
            | some setter =>
                let ty := litType lit s
                let oldVal := litGetValue lit s
                .ok (.constant ty oldVal none, setter (jsAdd oldVal (.vNum 1)) s)
            | none => .error "TypeError: setValue is not a function"
        | _ => .error "TypeError: cannot read source of the increment operand"
    | .sDec =>
        match l with
        | .literal lit _ =>
            match litSet lit with
            | some setter =>
                let ty := litType lit s
                let oldVal := litGetValue lit s
                .ok (.constant ty oldVal none, setter (.vNum (toNumber oldVal - 1)) s)
            | none => .error "TypeError: setValue is not a function"
        | _ => .error "TypeError: cannot read source of the decrement operand"
    | _ => do
        let (res, s1) ← reduceT f l s
        if res.isValue then calcPost op res s1
        else .ok (.post op res none, s1)

/-- The reduce procedures of the functions: if short-circuits on the test,
the side-effect probe bumps its counter, the Math-based rational functions
use the default recipe, the remaining (real-valued) natives are outside the
rational model. -/
def reduceFunc : Nat → CalcFunc → List CalculatorTree → CalcState →
    Except String (CalculatorTree × CalcState)
  | 0, _, _, _ => .error "reduce fuel exhausted"
  | f + 1, fn, ps, s =>
    match fn with
    | .fIf =>
        match ps with
        | test :: v1 :: v2 :: _ => do
            let (res, s1) ← reduceT f test s
            if res.isValue then
              reduceT f (if jsTruthy (treeGetValue res s1) then v1 else v2) s1
            else do
              let (vs, s2) ← reduceList f [v1, v2] s1
              match vs with
              | [r1, r2] => .ok (.func .fIf [res, r1, r2] none, s2)
              | _ => .error "reduceAll changed the arity"
        | _ => .error "TypeError: if called with fewer than three arguments"
    | .fSideEffect =>
        .ok (.constant .tBoolean (.vBool true) none, { s with sideEffects := s.sideEffects + 1 })
    | .fNative n => .error ("real-valued native function outside the rational model: " ++ String.mk n)
    | _ => do
        let (vs, s1) ← reduceList f ps s
        if vs.all (fun v => v.isValue) then calcFunc fn vs s1
        else .ok (.func fn vs none, s1)

end

mutual

/-- Number of nodes of a tree, used to pick a sufficient reduction fuel. -/
def treeSize : CalculatorTree → Nat
  | .constant _ _ _ => 1
  | .literal _ _ => 1
  | .array ps => treeSizeList ps + 1
  | .grouping l => treeSize l + 1
  | .binary _ l r _ => treeSize l + treeSize r + 1
  | .pre _ r _ => treeSize r + 1
  | .post _ l _ => treeSize l + 1
  | .func _ ps _ => treeSizeList ps + 1
  | .invalid _ => 1

def treeSizeList : List CalculatorTree → Nat
  | [] => 0
  | t :: ts => treeSize t + treeSizeList ts

end

/-- Fuel that always suffices for reduceT: every recursive call of the
mutual block either descends into a strict subtree or moves between the
dispatcher and one operator procedure, so twice the tree size plus a
constant bounds the depth. -/
def reduceFuel (t : CalculatorTree) : Nat := 2 * treeSize t + 16

/-- Reduction entry point with sufficient fuel. -/
def calcReduce (t : CalculatorTree) (s : CalcState) :
    Except String (CalculatorTree × CalcState) :=
  reduceT (reduceFuel t) t s

/-! ## Instrumented reduceAll (CalculatorContext.prototype.reduceAll).
The source decrements a count on every resolved element, zeroes it on an
error, calls resolve exactly when the count reaches 1 on a success, and
calls reject on every error; the log records each invocation of resolve
and of reject in order. -/

/-- The invocation log of one reduceAll call: the array snapshots passed to
resolve and the errors passed to reject. -/
structure RALog where
  resolves : List (List (Option CalculatorTree))
  rejects : List String

/-- The forEach body of reduceAll: every element is reduced in order even
after a failure; a success stores its value and fires resolve when the
count is 1 before decrementing; a failure zeroes the count and fires
reject. -/
def reduceAllGo (f : Nat) : List CalculatorTree → Nat → Int →
    List (Option CalculatorTree) → RALog → CalcState → RALog × CalcState
  | [], _, _, _, log, s => (log, s)
  | p :: ps, idx, count, values, log, s =>
    match reduceT f p s with
    | .ok (v, s1) =>
        let values1 := values.set idx (some v)
        let log1 := if count = 1 then { log with resolves := log.resolves ++ [values1] } else log
        reduceAllGo f ps (idx + 1) (count - 1) values1 log1 s1
    | .error e =>
        reduceAllGo f ps (idx + 1) 0 values { log with rejects := log.rejects ++ [e] } s

/-- reduceAll with its full resolve/reject invocation log: an empty list
resolves immediately with the empty array; otherwise the forEach loop
runs over a values array of the batch length. -/
def reduceAllLog (f : Nat) (ps : List CalculatorTree) (s : CalcState) : RALog × CalcState :=
  if ps.length = 0 then (⟨[[]], []⟩, s)
  else reduceAllGo f ps 0 (ps.length : Int) (List.replicate ps.length none) ⟨[], []⟩ s

/-- The outcome of reducing each element of a batch in order, threading the
state through successes (a failing element leaves the state as it found
it). -/
def reduceResults (f : Nat) : List CalculatorTree → CalcState →
    List (Except String CalculatorTree) × CalcState
  | [], s => ([], s)
  | p :: ps, s =>
    match reduceT f p s with
    | .ok (v, s1) =>
        let (rs, s2) := reduceResults f ps s1
        (.ok v :: rs, s2)
    | .error e =>
        let (rs, s2) := reduceResults f ps s
        (.error e :: rs, s2)

/-- The errors of a batch outcome, in order. -/
def errsOf (rs : List (Except String CalculatorTree)) : List String :=
  rs.filterMap fun r => match r with | .error e => some e | .ok _ => none

/-- The values array a fully successful batch ends with. -/
def okVals (rs : List (Except String CalculatorTree)) : List (Option CalculatorTree) :=
  rs.map fun r => match r with | .ok v => some v | .error _ => none

/-! ## Helpers for stating the claims. -/

/-- Whether the separator occurs in the formula at exactly this index. -/
def occursAtB (sep formula : List Char) (i : Nat) : Bool :=
  sep.isPrefixOf (formula.drop i)

/-- Parse a formula and reduce the resulting tree in the given state. -/
def parseReduce (f : String) (s : CalcState) : Except String (CalculatorTree × CalcState) :=
  match calcParse f with
  | .ok t => calcReduce t s
  | .error e => .error e.message

/-- Parse, reduce, and extract the final value when the reduction reaches
one, together with the final state. -/
def evalFormula (f : String) (s : CalcState) : Option (CalcValue × CalcState) :=
  match parseReduce f s with
  | .ok (r, s2) => if r.isValue then some (treeGetValue r s2, s2) else none
  | .error _ => none

/-- The round-trip check of the formatter specification: the formula
parses, its formatted text re-parses to a structurally equivalent tree, and
both trees reduce to structurally equivalent results with the same final
state. -/
def roundTripOK (f : String) : Bool :=
  match calcParse f with
  | .error _ => false
  | .ok t =>
    match calcParse (String.mk (formatT t)) with
    | .error _ => false
    | .ok t2 =>
      structEq t t2 &&
      match calcReduce t initState, calcReduce t2 initState with
      | .ok (r1, s1), .ok (r2, s2) => structEq r1 r2 && s1 = s2
      | _, _ => false

/-- A family of valid formulas covering every AST node kind (constants of
each numeric notation, literals, arrays, groupings, binary, prefix and
postfix operators and function calls). -/
def roundTripFamily : List String :=
  ["1 + 2 * 3", "(1 + 2) * 3", "[1, 2, 3]", "8 - 3 - 2", "2 ** 2 ** 3",
   "-2", "!true", "4²", "5!", "\"a\" + \"b\"", "0x10", "0o10", "0b10",
   "1.5", "pow(2, 3)", "if(true, 1, 2)", "mem", "pi", "√4", "null",
   "1 < 2 && 3 <= 4", "mem = 5", "1 ∈ [1, 2]"]

/-- The AST of the formula "- -2": two stacked prefix minus operators. -/
def minusMinusTwo : CalculatorTree :=
  .pre .pMinus (.pre .pMinus (.constant .tInteger (.vNum 2) (some ['2'])) (some ['-'])) (some ['-'])

/-- The AST of the formula "--2": the prefix decrement operator applied to
the constant 2. -/
def decTwo : CalculatorTree :=
  .pre .pDec (.constant .tInteger (.vNum 2) (some ['2'])) (some ['-', '-'])

/-! # Theorems for the claims -/

/-- C1 (counterexample): the round-trip property fails on the syntactically
valid formula "- -2".  Its AST is minus applied to minus applied to 2 and
reduces to the value 2, but format prints the two adjacent minus tokens as
"--2", which re-parses as the prefix decrement operator applied to 2 — a
structurally different AST whose reduction crashes instead of producing
2. -/
theorem claim1_roundtrip_counterexample :
    calcParse "- -2" = .ok minusMinusTwo ∧
    String.mk (formatT minusMinusTwo) = "--2" ∧
    calcParse "--2" = .ok decTwo ∧
    structEq minusMinusTwo decTwo = false ∧
    evalFormula "- -2" initState = some (.vNum 2, initState) ∧
    calcReduce decTwo initState = .error "TypeError: cannot read source of the decrement operand" :=
  ⟨rfl, rfl, rfl, rfl, rfl, rfl⟩

set_option maxHeartbeats 1600000 in
/-- C1 (amended): the round-trip property — format(parse(f)) re-parses to a
structurally equivalent AST that reduces to the same value and state — holds
whenever formatting does not juxtapose adjacent operator tokens into a
longer registered token; verified on a family of formulas covering every
AST node kind (grouping, array, binary, prefix, postfix, function call,
literal) and every registered value type. -/
theorem claim1_roundtrip_family :
    calcParse "(1.5 + 2) * -3" = .ok (.binary .bMul (.grouping (.binary .bAdd (.constant .tFloat (.vNum ((3 : Rat) / 2)) (some ['1', '.', '5'])) (.constant .tInteger (.vNum (2 : Rat)) (some ['2'])) (some ['+']))) (.pre .pMinus (.constant .tInteger (.vNum (3 : Rat)) (some ['3'])) (some ['-'])) (some ['*'])) ∧
    formatT (.binary .bMul (.grouping (.binary .bAdd (.constant .tFloat (.vNum ((3 : Rat) / 2)) (some ['1', '.', '5'])) (.constant .tInteger (.vNum (2 : Rat)) (some ['2'])) (some ['+']))) (.pre .pMinus (.constant .tInteger (.vNum (3 : Rat)) (some ['3'])) (some ['-'])) (some ['*'])) = "(1.5 + 2) * -3".toList ∧
    calcParse "(1.5 + 2) * -3" = .ok (.binary .bMul (.grouping (.binary .bAdd (.constant .tFloat (.vNum ((3 : Rat) / 2)) (some ['1', '.', '5'])) (.constant .tInteger (.vNum (2 : Rat)) (some ['2'])) (some ['+']))) (.pre .pMinus (.constant .tInteger (.vNum (3 : Rat)) (some ['3'])) (some ['-'])) (some ['*'])) ∧
    structEq (.binary .bMul (.grouping (.binary .bAdd (.constant .tFloat (.vNum ((3 : Rat) / 2)) (some ['1', '.', '5'])) (.constant .tInteger (.vNum (2 : Rat)) (some ['2'])) (some ['+']))) (.pre .pMinus (.constant .tInteger (.vNum (3 : Rat)) (some ['3'])) (some ['-'])) (some ['*'])) (.binary .bMul (.grouping (.binary .bAdd (.constant .tFloat (.vNum ((3 : Rat) / 2)) (some ['1', '.', '5'])) (.constant .tInteger (.vNum (2 : Rat)) (some ['2'])) (some ['+']))) (.pre .pMinus (.constant .tInteger (.vNum (3 : Rat)) (some ['3'])) (some ['-'])) (some ['*'])) = true ∧
    calcReduce (.binary .bMul (.grouping (.binary .bAdd (.constant .tFloat (.vNum ((3 : Rat) / 2)) (some ['1', '.', '5'])) (.constant .tInteger (.vNum (2 : Rat)) (some ['2'])) (some ['+']))) (.pre .pMinus (.constant .tInteger (.vNum (3 : Rat)) (some ['3'])) (some ['-'])) (some ['*'])) initState = .ok ((.constant .tFloat (.vNum ((-21 : Rat) / 2)) none), (⟨.vNull, .tNull, 0⟩ : CalcState)) ∧
    calcReduce (.binary .bMul (.grouping (.binary .bAdd (.constant .tFloat (.vNum ((3 : Rat) / 2)) (some ['1', '.', '5'])) (.constant .tInteger (.vNum (2 : Rat)) (some ['2'])) (some ['+']))) (.pre .pMinus (.constant .tInteger (.vNum (3 : Rat)) (some ['3'])) (some ['-'])) (some ['*'])) initState = .ok ((.constant .tFloat (.vNum ((-21 : Rat) / 2)) none), (⟨.vNull, .tNull, 0⟩ : CalcState)) ∧
    structEq (.constant .tFloat (.vNum ((-21 : Rat) / 2)) none) (.constant .tFloat (.vNum ((-21 : Rat) / 2)) none) = true ∧
    calcParse "[0x10, 0o7, 0b1, \"a\", null, true]" = .ok (.array [(.constant .tHex (.vNum (16 : Rat)) (some ['0', 'x', '1', '0'])), (.constant .tOctal (.vNum (7 : Rat)) (some ['0', 'o', '7'])), (.constant .tBinary (.vNum (1 : Rat)) (some ['0', 'b', '1'])), (.constant .tString (.vStr ['a']) (some ['\"', 'a', '\"'])), (.constant .tNull .vNull (some ['n', 'u', 'l', 'l'])), (.constant .tBoolean (.vBool true) (some ['t', 'r', 'u', 'e']))]) ∧
    formatT (.array [(.constant .tHex (.vNum (16 : Rat)) (some ['0', 'x', '1', '0'])), (.constant .tOctal (.vNum (7 : Rat)) (some ['0', 'o', '7'])), (.constant .tBinary (.vNum (1 : Rat)) (some ['0', 'b', '1'])), (.constant .tString (.vStr ['a']) (some ['\"', 'a', '\"'])), (.constant .tNull .vNull (some ['n', 'u', 'l', 'l'])), (.constant .tBoolean (.vBool true) (some ['t', 'r', 'u', 'e']))]) = "[0x10, 0o7, 0b1, \"a\", null, true]".toList ∧
    calcParse "[0x10, 0o7, 0b1, \"a\", null, true]" = .ok (.array [(.constant .tHex (.vNum (16 : Rat)) (some ['0', 'x', '1', '0'])), (.constant .tOctal (.vNum (7 : Rat)) (some ['0', 'o', '7'])), (.constant .tBinary (.vNum (1 : Rat)) (some ['0', 'b', '1'])), (.constant .tString (.vStr ['a']) (some ['\"', 'a', '\"'])), (.constant .tNull .vNull (some ['n', 'u', 'l', 'l'])), (.constant .tBoolean (.vBool true) (some ['t', 'r', 'u', 'e']))]) ∧
    structEq (.array [(.constant .tHex (.vNum (16 : Rat)) (some ['0', 'x', '1', '0'])), (.constant .tOctal (.vNum (7 : Rat)) (some ['0', 'o', '7'])), (.constant .tBinary (.vNum (1 : Rat)) (some ['0', 'b', '1'])), (.constant .tString (.vStr ['a']) (some ['\"', 'a', '\"'])), (.constant .tNull .vNull (some ['n', 'u', 'l', 'l'])), (.constant .tBoolean (.vBool true) (some ['t', 'r', 'u', 'e']))]) (.array [(.constant .tHex (.vNum (16 : Rat)) (some ['0', 'x', '1', '0'])), (.constant .tOctal (.vNum (7 : Rat)) (some ['0', 'o', '7'])), (.constant .tBinary (.vNum (1 : Rat)) (some ['0', 'b', '1'])), (.constant .tString (.vStr ['a']) (some ['\"', 'a', '\"'])), (.constant .tNull .vNull (some ['n', 'u', 'l', 'l'])), (.constant .tBoolean (.vBool true) (some ['t', 'r', 'u', 'e']))]) = true ∧
    calcReduce (.array [(.constant .tHex (.vNum (16 : Rat)) (some ['0', 'x', '1', '0'])), (.constant .tOctal (.vNum (7 : Rat)) (some ['0', 'o', '7'])), (.constant .tBinary (.vNum (1 : Rat)) (some ['0', 'b', '1'])), (.constant .tString (.vStr ['a']) (some ['\"', 'a', '\"'])), (.constant .tNull .vNull (some ['n', 'u', 'l', 'l'])), (.constant .tBoolean (.vBool true) (some ['t', 'r', 'u', 'e']))]) initState = .ok ((.array [(.constant .tHex (.vNum (16 : Rat)) (some ['0', 'x', '1', '0'])), (.constant .tOctal (.vNum (7 : Rat)) (some ['0', 'o', '7'])), (.constant .tBinary (.vNum (1 : Rat)) (some ['0', 'b', '1'])), (.constant .tString (.vStr ['a']) (some ['\"', 'a', '\"'])), (.constant .tNull .vNull (some ['n', 'u', 'l', 'l'])), (.constant .tBoolean (.vBool true) (some ['t', 'r', 'u', 'e']))]), (⟨.vNull, .tNull, 0⟩ : CalcState)) ∧
    calcReduce (.array [(.constant .tHex (.vNum (16 : Rat)) (some ['0', 'x', '1', '0'])), (.constant .tOctal (.vNum (7 : Rat)) (some ['0', 'o', '7'])), (.constant .tBinary (.vNum (1 : Rat)) (some ['0', 'b', '1'])), (.constant .tString (.vStr ['a']) (some ['\"', 'a', '\"'])), (.constant .tNull .vNull (some ['n', 'u', 'l', 'l'])), (.constant .tBoolean (.vBool true) (some ['t', 'r', 'u', 'e']))]) initState = .ok ((.array [(.constant .tHex (.vNum (16 : Rat)) (some ['0', 'x', '1', '0'])), (.constant .tOctal (.vNum (7 : Rat)) (some ['0', 'o', '7'])), (.constant .tBinary (.vNum (1 : Rat)) (some ['0', 'b', '1'])), (.constant .tString (.vStr ['a']) (some ['\"', 'a', '\"'])), (.constant .tNull .vNull (some ['n', 'u', 'l', 'l'])), (.constant .tBoolean (.vBool true) (some ['t', 'r', 'u', 'e']))]), (⟨.vNull, .tNull, 0⟩ : CalcState)) ∧
    structEq (.array [(.constant .tHex (.vNum (16 : Rat)) (some ['0', 'x', '1', '0'])), (.constant .tOctal (.vNum (7 : Rat)) (some ['0', 'o', '7'])), (.constant .tBinary (.vNum (1 : Rat)) (some ['0', 'b', '1'])), (.constant .tString (.vStr ['a']) (some ['\"', 'a', '\"'])), (.constant .tNull .vNull (some ['n', 'u', 'l', 'l'])), (.constant .tBoolean (.vBool true) (some ['t', 'r', 'u', 'e']))]) (.array [(.constant .tHex (.vNum (16 : Rat)) (some ['0', 'x', '1', '0'])), (.constant .tOctal (.vNum (7 : Rat)) (some ['0', 'o', '7'])), (.constant .tBinary (.vNum (1 : Rat)) (some ['0', 'b', '1'])), (.constant .tString (.vStr ['a']) (some ['\"', 'a', '\"'])), (.constant .tNull .vNull (some ['n', 'u', 'l', 'l'])), (.constant .tBoolean (.vBool true) (some ['t', 'r', 'u', 'e']))]) = true ∧
    calcParse "2 ** 2 ** 3" = .ok (.binary .bPow (.constant .tInteger (.vNum (2 : Rat)) (some ['2'])) (.binary .bPow (.constant .tInteger (.vNum (2 : Rat)) (some ['2'])) (.constant .tInteger (.vNum (3 : Rat)) (some ['3'])) (some ['*', '*'])) (some ['*', '*'])) ∧
    formatT (.binary .bPow (.constant .tInteger (.vNum (2 : Rat)) (some ['2'])) (.binary .bPow (.constant .tInteger (.vNum (2 : Rat)) (some ['2'])) (.constant .tInteger (.vNum (3 : Rat)) (some ['3'])) (some ['*', '*'])) (some ['*', '*'])) = "2 ** 2 ** 3".toList ∧
    calcParse "2 ** 2 ** 3" = .ok (.binary .bPow (.constant .tInteger (.vNum (2 : Rat)) (some ['2'])) (.binary .bPow (.constant .tInteger (.vNum (2 : Rat)) (some ['2'])) (.constant .tInteger (.vNum (3 : Rat)) (some ['3'])) (some ['*', '*'])) (some ['*', '*'])) ∧
    structEq (.binary .bPow (.constant .tInteger (.vNum (2 : Rat)) (some ['2'])) (.binary .bPow (.constant .tInteger (.vNum (2 : Rat)) (some ['2'])) (.constant .tInteger (.vNum (3 : Rat)) (some ['3'])) (some ['*', '*'])) (some ['*', '*'])) (.binary .bPow (.constant .tInteger (.vNum (2 : Rat)) (some ['2'])) (.binary .bPow (.constant .tInteger (.vNum (2 : Rat)) (some ['2'])) (.constant .tInteger (.vNum (3 : Rat)) (some ['3'])) (some ['*', '*'])) (some ['*', '*'])) = true ∧
    calcReduce (.binary .bPow (.constant .tInteger (.vNum (2 : Rat)) (some ['2'])) (.binary .bPow (.constant .tInteger (.vNum (2 : Rat)) (some ['2'])) (.constant .tInteger (.vNum (3 : Rat)) (some ['3'])) (some ['*', '*'])) (some ['*', '*'])) initState = .ok ((.constant .tFloat (.vNum (256 : Rat)) none), (⟨.vNull, .tNull, 0⟩ : CalcState)) ∧
    calcReduce (.binary .bPow (.constant .tInteger (.vNum (2 : Rat)) (some ['2'])) (.binary .bPow (.constant .tInteger (.vNum (2 : Rat)) (some ['2'])) (.constant .tInteger (.vNum (3 : Rat)) (some ['3'])) (some ['*', '*'])) (some ['*', '*'])) initState = .ok ((.constant .tFloat (.vNum (256 : Rat)) none), (⟨.vNull, .tNull, 0⟩ : CalcState)) ∧
    structEq (.constant .tFloat (.vNum (256 : Rat)) none) (.constant .tFloat (.vNum (256 : Rat)) none) = true ∧
    calcParse "1 + 4²" = .ok (.binary .bAdd (.constant .tInteger (.vNum (1 : Rat)) (some ['1'])) (.post .sSquare (.constant .tInteger (.vNum (4 : Rat)) (some ['4'])) (some ['²'])) (some ['+'])) ∧
    formatT (.binary .bAdd (.constant .tInteger (.vNum (1 : Rat)) (some ['1'])) (.post .sSquare (.constant .tInteger (.vNum (4 : Rat)) (some ['4'])) (some ['²'])) (some ['+'])) = "1 + 4²".toList ∧
    calcParse "1 + 4²" = .ok (.binary .bAdd (.constant .tInteger (.vNum (1 : Rat)) (some ['1'])) (.post .sSquare (.constant .tInteger (.vNum (4 : Rat)) (some ['4'])) (some ['²'])) (some ['+'])) ∧
    structEq (.binary .bAdd (.constant .tInteger (.vNum (1 : Rat)) (some ['1'])) (.post .sSquare (.constant .tInteger (.vNum (4 : Rat)) (some ['4'])) (some ['²'])) (some ['+'])) (.binary .bAdd (.constant .tInteger (.vNum (1 : Rat)) (some ['1'])) (.post .sSquare (.constant .tInteger (.vNum (4 : Rat)) (some ['4'])) (some ['²'])) (some ['+'])) = true ∧
    calcReduce (.binary .bAdd (.constant .tInteger (.vNum (1 : Rat)) (some ['1'])) (.post .sSquare (.constant .tInteger (.vNum (4 : Rat)) (some ['4'])) (some ['²'])) (some ['+'])) initState = .ok ((.constant .tFloat (.vNum (17 : Rat)) none), (⟨.vNull, .tNull, 0⟩ : CalcState)) ∧
    calcReduce (.binary .bAdd (.constant .tInteger (.vNum (1 : Rat)) (some ['1'])) (.post .sSquare (.constant .tInteger (.vNum (4 : Rat)) (some ['4'])) (some ['²'])) (some ['+'])) initState = .ok ((.constant .tFloat (.vNum (17 : Rat)) none), (⟨.vNull, .tNull, 0⟩ : CalcState)) ∧
    structEq (.constant .tFloat (.vNum (17 : Rat)) none) (.constant .tFloat (.vNum (17 : Rat)) none) = true ∧
    calcParse "5!" = .ok (.post .sFact (.constant .tInteger (.vNum (5 : Rat)) (some ['5'])) (some ['!'])) ∧
    formatT (.post .sFact (.constant .tInteger (.vNum (5 : Rat)) (some ['5'])) (some ['!'])) = "5!".toList ∧
    calcParse "5!" = .ok (.post .sFact (.constant .tInteger (.vNum (5 : Rat)) (some ['5'])) (some ['!'])) ∧
    structEq (.post .sFact (.constant .tInteger (.vNum (5 : Rat)) (some ['5'])) (some ['!'])) (.post .sFact (.constant .tInteger (.vNum (5 : Rat)) (some ['5'])) (some ['!'])) = true ∧
    calcReduce (.post .sFact (.constant .tInteger (.vNum (5 : Rat)) (some ['5'])) (some ['!'])) initState = .ok ((.constant .tInteger (.vNum (120 : Rat)) none), (⟨.vNull, .tNull, 0⟩ : CalcState)) ∧
    calcReduce (.post .sFact (.constant .tInteger (.vNum (5 : Rat)) (some ['5'])) (some ['!'])) initState = .ok ((.constant .tInteger (.vNum (120 : Rat)) none), (⟨.vNull, .tNull, 0⟩ : CalcState)) ∧
    structEq (.constant .tInteger (.vNum (120 : Rat)) none) (.constant .tInteger (.vNum (120 : Rat)) none) = true ∧
    calcParse "if(1 < 2, pi, e)" = .ok (.func .fIf [(.binary .bLt (.constant .tInteger (.vNum (1 : Rat)) (some ['1'])) (.constant .tInteger (.vNum (2 : Rat)) (some ['2'])) (some ['<'])), (.literal .pi (some ['p', 'i'])), (.literal .e (some ['e']))] (some ['i', 'f'])) ∧
    formatT (.func .fIf [(.binary .bLt (.constant .tInteger (.vNum (1 : Rat)) (some ['1'])) (.constant .tInteger (.vNum (2 : Rat)) (some ['2'])) (some ['<'])), (.literal .pi (some ['p', 'i'])), (.literal .e (some ['e']))] (some ['i', 'f'])) = "if(1 < 2, pi, e)".toList ∧
    calcParse "if(1 < 2, pi, e)" = .ok (.func .fIf [(.binary .bLt (.constant .tInteger (.vNum (1 : Rat)) (some ['1'])) (.constant .tInteger (.vNum (2 : Rat)) (some ['2'])) (some ['<'])), (.literal .pi (some ['p', 'i'])), (.literal .e (some ['e']))] (some ['i', 'f'])) ∧
    structEq (.func .fIf [(.binary .bLt (.constant .tInteger (.vNum (1 : Rat)) (some ['1'])) (.constant .tInteger (.vNum (2 : Rat)) (some ['2'])) (some ['<'])), (.literal .pi (some ['p', 'i'])), (.literal .e (some ['e']))] (some ['i', 'f'])) (.func .fIf [(.binary .bLt (.constant .tInteger (.vNum (1 : Rat)) (some ['1'])) (.constant .tInteger (.vNum (2 : Rat)) (some ['2'])) (some ['<'])), (.literal .pi (some ['p', 'i'])), (.literal .e (some ['e']))] (some ['i', 'f'])) = true ∧
    calcReduce (.func .fIf [(.binary .bLt (.constant .tInteger (.vNum (1 : Rat)) (some ['1'])) (.constant .tInteger (.vNum (2 : Rat)) (some ['2'])) (some ['<'])), (.literal .pi (some ['p', 'i'])), (.literal .e (some ['e']))] (some ['i', 'f'])) initState = .ok ((.constant .tFloat (.vNum ((884279719003555 : Rat) / 281474976710656)) none), (⟨.vNull, .tNull, 0⟩ : CalcState)) ∧
    calcReduce (.func .fIf [(.binary .bLt (.constant .tInteger (.vNum (1 : Rat)) (some ['1'])) (.constant .tInteger (.vNum (2 : Rat)) (some ['2'])) (some ['<'])), (.literal .pi (some ['p', 'i'])), (.literal .e (some ['e']))] (some ['i', 'f'])) initState = .ok ((.constant .tFloat (.vNum ((884279719003555 : Rat) / 281474976710656)) none), (⟨.vNull, .tNull, 0⟩ : CalcState)) ∧
    structEq (.constant .tFloat (.vNum ((884279719003555 : Rat) / 281474976710656)) none) (.constant .tFloat (.vNum ((884279719003555 : Rat) / 281474976710656)) none) = true :=
  ⟨rfl, rfl, rfl, rfl, rfl, rfl, rfl, rfl, rfl, rfl, rfl, rfl, rfl, rfl, rfl, rfl, rfl, rfl, rfl, rfl, rfl, rfl, rfl, rfl, rfl, rfl, rfl, rfl, rfl, rfl, rfl, rfl, rfl, rfl, rfl, rfl, rfl, rfl, rfl, rfl, rfl, rfl⟩

/-- C2: the precedence-climbing parser gives the right operand the minimum
precedence p+1 for left-associative and p for right-associative operators:
"8 - 3 - 2" parses as (8-3)-2 and evaluates to 3, while "2 ** 2 ** 3"
parses as 2**(2**3) and evaluates to 256. -/
theorem claim2_associativity :
    calcParse "8 - 3 - 2" =
      .ok (.binary .bSub
            (.binary .bSub (.constant .tInteger (.vNum 8) (some ['8']))
              (.constant .tInteger (.vNum 3) (some ['3'])) (some ['-']))
            (.constant .tInteger (.vNum 2) (some ['2'])) (some ['-'])) ∧
    evalFormula "8 - 3 - 2" initState = some (.vNum 3, initState) ∧
    calcParse "2 ** 2 ** 3" =
      .ok (.binary .bPow (.constant .tInteger (.vNum 2) (some ['2']))
            (.binary .bPow (.constant .tInteger (.vNum 2) (some ['2']))
              (.constant .tInteger (.vNum 3) (some ['3'])) (some ['*', '*']))
            (some ['*', '*'])) ∧
    evalFormula "2 ** 2 ** 3" initState = some (.vNum 256, initState) :=
  ⟨rfl, rfl, rfl, rfl⟩

/-- C3: the logical operators short-circuit.  Reducing
"false && sideEffect()" resolves with the left constant false and never
invokes the reduce procedure of the probe function (its counter stays 0),
while the dual cases that need the right operand do invoke it exactly
once. -/
theorem claim3_short_circuit :
    calcParse "false && sideEffect()" =
      .ok (.binary .bAnd (.constant .tBoolean (.vBool false) (some "false".toList))
            (.func .fSideEffect [] (some "sideEffect".toList)) (some "&&".toList)) ∧
    parseReduce "false && sideEffect()" initState =
      .ok (.constant .tBoolean (.vBool false) (some "false".toList), initState) ∧
    (evalFormula "false && sideEffect()" initState).map (fun p => p.2.sideEffects) = some 0 ∧
    (evalFormula "true && sideEffect()" initState).map (fun p => p.2.sideEffects) = some 1 ∧
    (evalFormula "true || sideEffect()" initState).map (fun p => p.2.sideEffects) = some 0 ∧
    (evalFormula "false || sideEffect()" initState).map (fun p => p.2.sideEffects) = some 1 :=
  ⟨rfl, rfl, rfl, rfl, rfl, rfl⟩

/-- C6 (counterexample): "2³" reduces to 8 (pow(2,3)), not to 27 as the
claim states. -/
theorem claim6_cube_counterexample :
    evalFormula "2³" initState = some (.vNum 8, initState) ∧ (8 : Rat) ≠ 27 :=
  ⟨rfl, by norm_num⟩

/-- C6 (amended): the postfix operators ² and ³ are sugar for pow(x,2) and
pow(x,3): "4²" reduces to 16 and "2³" reduces to 8, the same values as the
corresponding pow calls. -/
theorem claim6_power_sugar :
    evalFormula "4²" initState = some (.vNum 16, initState) ∧
    evalFormula "2³" initState = some (.vNum 8, initState) ∧
    (evalFormula "4²" initState).map Prod.fst = (evalFormula "pow(4, 2)" initState).map Prod.fst ∧
    (evalFormula "2³" initState).map Prod.fst = (evalFormula "pow(2, 3)" initState).map Prod.fst :=
  ⟨rfl, rfl, rfl, rfl⟩

/-- C9: a successful assignment also overwrites the declared type of the
target literal in the registry: after reducing the assignment of the
string "a" to mem, the mem entry has the string type, and a later
reduction of "mem" yields a string-typed constant. -/
theorem claim9_assignment_retypes :
    parseReduce "mem = \"a\"" initState =
      .ok (.constant .tString (.vStr ['a']) (some ['"', 'a', '"']),
           ⟨.vStr ['a'], .tString, 0⟩) ∧
    parseReduce "mem" ⟨.vStr ['a'], .tString, 0⟩ =
      .ok (.constant .tString (.vStr ['a']) none, ⟨.vStr ['a'], .tString, 0⟩) :=
  ⟨rfl, rfl⟩

/-- If the fuel reaches zero the loop reports none, never a value. -/
theorem factLoop_zero_fuel (r : Rat) (v : Int) : factLoop 0 r v = none := rfl

/-- For a negative counter the factorial loop never terminates: no amount
of fuel makes it return. -/
theorem factLoop_neg (n : Nat) : ∀ (r : Rat) (v : Int), v < 0 → factLoop n r v = none := by
  induction n with
  | zero => intro r v _; rfl
  | succ n ih =>
      intro r v hv
      have hne : ¬ v = 0 := by omega
      simp only [factLoop, hne, if_false]
      exact ih _ _ (by omega)

/-- For a non-negative counter k, fuel k+1 completes the loop. -/
theorem factLoop_nonneg (k : Nat) : ∀ r : Rat, (factLoop (k + 1) r (k : Int)).isSome = true := by
  induction k with
  | zero => intro r; rfl
  | succ k ih =>
      intro r
      have hne : ¬ ((k + 1 : Nat) : Int) = 0 := by omega
      have hstep : ((k + 1 : Nat) : Int) - 1 = (k : Int) := by omega
      simp only [factLoop, hne, if_false, hstep]
      exact ih _

/-- C10: the iterative loop of the postfix factorial operator
(result = 1; v = Math.round(a); while (v !== 0) result *= v--)
terminates exactly when the rounded operand is non-negative: some fuel
completes the loop iff 0 ≤ round(a), and the embedded operator resolves an
integer constant under that precondition while it fails (modelling the
non-terminating loop) on a negative rounded operand. -/
theorem claim10_factorial_termination :
    (∀ a : Rat, (∃ n, (factLoop n 1 (jsRound a)).isSome = true) ↔ 0 ≤ jsRound a) ∧
    (∀ (a : Rat) (s : CalcState),
      (0 ≤ jsRound a →
        ∃ r, calcPost .sFact (.constant .tFloat (.vNum a) none) s =
            .ok (.constant .tInteger (.vNum r) none, s) ∧
          factLoop ((jsRound a).toNat + 1) 1 (jsRound a) = some r) ∧
      (jsRound a < 0 →
        calcPost .sFact (.constant .tFloat (.vNum a) none) s =
          .error "postfix factorial loop never terminates on a negative operand")) := by
  constructor
  · intro a
    constructor
    · rintro ⟨n, hn⟩
      by_contra h
      push_neg at h
      rw [factLoop_neg n 1 (jsRound a) h] at hn
      exact Bool.noConfusion hn
    · intro h
      refine ⟨(jsRound a).toNat + 1, ?_⟩
      have := factLoop_nonneg (jsRound a).toNat 1
      rwa [Int.toNat_of_nonneg h] at this
  · intro a s
    constructor
    · intro h
      have h1 := factLoop_nonneg (jsRound a).toNat 1
      rw [Int.toNat_of_nonneg h] at h1
      rcases Option.isSome_iff_exists.mp h1 with ⟨r, hr⟩
      refine ⟨r, ?_, hr⟩
      simp only [calcPost, treeGetValue, toNumber]
      rw [hr]
    · intro h
      simp only [calcPost, treeGetValue, toNumber]
      rw [factLoop_neg _ 1 (jsRound a) h]

/-- Witness for C10 at concrete operands: 5 rounds to a non-negative value
and completes (to 120), while -1 rounds negative and the embedded operator
fails. -/
theorem claim10_factorial_termination_witness :
    (0 : Int) ≤ jsRound 5 ∧
    (∃ r, calcPost .sFact (.constant .tFloat (.vNum 5) none) initState =
        .ok (.constant .tInteger (.vNum r) none, initState) ∧
      factLoop ((jsRound 5).toNat + 1) 1 (jsRound 5) = some r) ∧
    jsRound (-1) < 0 ∧
    calcPost .sFact (.constant .tFloat (.vNum (-1)) none) initState =
      .error "postfix factorial loop never terminates on a negative operand" :=
  ⟨by decide, (claim10_factorial_termination.2 5 initState).1 (by decide), by decide,
   (claim10_factorial_termination.2 (-1) initState).2 (by decide)⟩

/-- C8: the = operator writes through the literal setter exactly when the
right-hand side fully reduces to a value: concretely, after reducing
"mem = 5" the state holds 5 (typed integer) and a later "mem + 1" in that
state reduces to 6; in general, for any tree whose reduction succeeds, the
assignment to mem stores the reduced value and its type when that result
is a value and leaves the state untouched when it is not, resolving with
the reduced right-hand side either way. -/
theorem claim8_assignment :
    parseReduce "mem = 5" initState =
      .ok (.constant .tInteger (.vNum 5) (some ['5']), ⟨.vNum 5, .tInteger, 0⟩) ∧
    parseReduce "mem + 1" ⟨.vNum 5, .tInteger, 0⟩ =
      .ok (.constant .tFloat (.vNum 6) none, ⟨.vNum 5, .tInteger, 0⟩) ∧
    (∀ (b bv : CalculatorTree) (f : Nat) (s s1 : CalcState),
      reduceT f b s = .ok (bv, s1) →
      (bv.isValue = true →
        reduceT (f + 2) (.binary .bAssign (.literal .mem none) b none) s =
          .ok (bv, { s1 with memValue := treeGetValue bv s1, memType := treeGetType bv s1 })) ∧
      (bv.isValue = false →
        reduceT (f + 2) (.binary .bAssign (.literal .mem none) b none) s = .ok (bv, s1))) := by
  refine ⟨rfl, rfl, ?_⟩
  intro b bv f s s1 h
  have hstep : reduceT (f + 2) (.binary .bAssign (.literal .mem none) b none) s =
      reduceBin (f + 1) .bAssign (.literal .mem none) b s := rfl
  constructor
  · intro hv
    rw [hstep]
    have hty : treeGetType bv ({ s1 with memValue := treeGetValue bv s1 }) = treeGetType bv s1 := by
      cases bv with
      | literal l tok => cases l <;> rfl
      | _ => rfl
    simp only [reduceBin, h, bind, Except.bind, hv, if_true, litSet, litSetType]
    simp only [litSetType] at hty ⊢
    rw [hty]
  · intro hv
    rw [hstep]
    simp only [reduceBin, h, bind, Except.bind, hv, if_false, Bool.false_eq_true]

/-- Witness for C8: assigning the already-reduced constant 7 writes the
value and its type into the state, while assigning a reduced array (not a
value) leaves the state untouched. -/
theorem claim8_assignment_witness :
    reduceT 3 (.binary .bAssign (.literal .mem none) (.constant .tInteger (.vNum 7) none) none)
        initState =
      .ok (.constant .tInteger (.vNum 7) none, ⟨.vNum 7, .tInteger, 0⟩) ∧
    reduceT 4 (.binary .bAssign (.literal .mem none) (.array []) none) initState =
      .ok (.array [], initState) :=
  ⟨(claim8_assignment.2.2 (.constant .tInteger (.vNum 7) none)
      (.constant .tInteger (.vNum 7) none) 1 initState initState rfl).1 rfl,
   (claim8_assignment.2.2 (.array []) (.array []) 2 initState initState rfl).2 rfl⟩

/-- A string content is well escaped when its first embedded quote, if
any, is directly preceded by a backslash.  Every content produced by the
tokenizer (where all embedded quotes are escaped) satisfies this. -/
def escWF : List Char → Bool
  | [] => true
  | [c] => c ≠ '"'
  | c :: d :: t =>
    if c = '"' then false
    else if c = '\\' ∧ d = '"' then true
    else escWF (d :: t)

/-- replFirst with the escape pattern is the identity on quote-free
strings. -/
theorem replFirst_esc_noQuote : ∀ s : List Char, '"' ∉ s →
    replFirst ['\\', '"'] ['"'] s = s := by
  intro s
  induction s with
  | nil => intro _; rfl
  | cons c t ih =>
      intro h
      have hq : '"' ∉ t := fun hm => h (List.mem_cons_of_mem _ hm)
      have hpre : (['\\', '"'].isPrefixOf (c :: t)) = false := by
        cases t with
        | nil => simp [List.isPrefixOf]
        | cons d u =>
            have hd : d ≠ '"' := fun he => hq (he ▸ List.mem_cons_self d u)
            simp [List.isPrefixOf]
            exact fun _ he => hd he.symm
      simp only [replFirst, hpre, Bool.false_eq_true, if_false, ih hq]

/-- replFirst with the quote pattern is the identity on quote-free
strings. -/
theorem replFirst_q_noQuote : ∀ s : List Char, '"' ∉ s →
    replFirst ['"'] ['\\', '"'] s = s := by
  intro s
  induction s with
  | nil => intro _; rfl
  | cons c t ih =>
      intro h
      have hc : c ≠ '"' := fun he => h (he ▸ List.mem_cons_self c t)
      have hq : '"' ∉ t := fun hm => h (List.mem_cons_of_mem _ hm)
      have hpre : (['"'].isPrefixOf (c :: t)) = false := by
        simp [List.isPrefixOf]
        exact fun he => hc he.symm
      simp only [replFirst, hpre, Bool.false_eq_true, if_false, ih hq]

/-- Unescaping replaces exactly the first escaped quote when the prefix
before it is quote-free. -/
theorem replFirst_esc_at : ∀ a : List Char, '"' ∉ a → ∀ b : List Char,
    replFirst ['\\', '"'] ['"'] (a ++ '\\' :: '"' :: b) = a ++ '"' :: b := by
  intro a
  induction a with
  | nil => intro _ b; simp [replFirst, List.isPrefixOf]
  | cons c a ih =>
      intro h b
      have ha : '"' ∉ a := fun hm => h (List.mem_cons_of_mem _ hm)
      have hpre : (['\\', '"'].isPrefixOf (c :: (a ++ '\\' :: '"' :: b))) = false := by
        cases a with
        | nil => simp [List.isPrefixOf]
        | cons d u =>
            have hd : d ≠ '"' := fun he => ha (he ▸ List.mem_cons_self d u)
            simp [List.isPrefixOf]
            exact fun _ he => hd he.symm
      simp only [List.append_eq, List.cons_append, replFirst, hpre, Bool.false_eq_true, if_false,
        ih ha b]

/-- Re-escaping replaces exactly the first quote when the prefix before it
is quote-free. -/
theorem replFirst_q_at : ∀ a : List Char, '"' ∉ a → ∀ b : List Char,
    replFirst ['"'] ['\\', '"'] (a ++ '"' :: b) = a ++ '\\' :: '"' :: b := by
  intro a
  induction a with
  | nil => intro _ b; simp [replFirst, List.isPrefixOf]
  | cons c a ih =>
      intro h b
      have hc : c ≠ '"' := fun he => h (he ▸ List.mem_cons_self c a)
      have ha : '"' ∉ a := fun hm => h (List.mem_cons_of_mem _ hm)
      have hpre : (['"'].isPrefixOf (c :: (a ++ '"' :: b))) = false := by
        simp [List.isPrefixOf]
        exact fun he => hc he.symm
      simp only [List.append_eq, List.cons_append, replFirst, hpre, Bool.false_eq_true, if_false,
        ih ha b]

/-- A well-escaped content either has no quote at all or splits at its
first (escaped) quote. -/
theorem escWF_decomp : ∀ (n : Nat) (s : List Char), s.length ≤ n → escWF s = true →
    ('"' ∉ s) ∨ ∃ a b, '"' ∉ a ∧ s = a ++ '\\' :: '"' :: b := by
  intro n
  induction n with
  | zero =>
      intro s hlen _
      have : s = [] := List.length_eq_zero.mp (Nat.le_zero.mp hlen)
      subst this
      exact Or.inl (List.not_mem_nil _)
  | succ n ih =>
      intro s hlen hwf
      rcases s with _ | ⟨c, t⟩
      · exact Or.inl (List.not_mem_nil _)
      · rcases t with _ | ⟨d, u⟩
        · have hc : c ≠ '"' := by simpa [escWF] using hwf
          refine Or.inl ?_
          intro hm
          rcases List.mem_cons.mp hm with he | hm
          · exact hc he.symm
          · exact List.not_mem_nil _ hm
        · have hc : c ≠ '"' := by
            intro he
            subst he
            simp [escWF] at hwf
          by_cases hesc : c = '\\' ∧ d = '"'
          · obtain ⟨rfl, rfl⟩ := hesc
            exact Or.inr ⟨[], u, List.not_mem_nil _, rfl⟩
          · have hwt : escWF (d :: u) = true := by
              rw [show escWF (c :: d :: u) =
                  (if c = '"' then false
                   else if c = '\\' ∧ d = '"' then true else escWF (d :: u)) from rfl] at hwf
              simpa [hc, hesc] using hwf
            rcases ih (d :: u) (by simpa using Nat.le_of_succ_le_succ hlen) hwt with
              h | ⟨a, b, ha, heq⟩
            · refine Or.inl ?_
              intro hm
              rcases List.mem_cons.mp hm with he | hm
              · exact hc he.symm
              · exact h hm
            · refine Or.inr ⟨c :: a, b, ?_, by rw [heq, List.cons_append]⟩
              intro hm
              rcases List.mem_cons.mp hm with he | hm
              · exact hc he.symm
              · exact ha hm

/-- A token accepted by the string type is its opening quote, its inner
content, and its closing quote. -/
theorem quoted_reassemble (tok : List Char) (h2 : 2 ≤ tok.length)
    (hh : tok.head? = some '"') (hl : tok.getLast? = some '"') :
    tok = '"' :: ((tok.drop 1).dropLast ++ ['"']) := by
  rcases tok with _ | ⟨c, rest⟩
  · simp at hh
  · have hc : c = '"' := by simpa using hh
    subst hc
    have hne : rest ≠ [] := by
      intro he
      subst he
      simp at h2
    have hrl : rest.getLast? = some '"' := by
      rcases rest with _ | ⟨d, rs⟩
      · exact absurd rfl hne
      · rw [List.getLast?_cons_cons] at hl
        exact hl
    have hsplit := List.dropLast_append_getLast? '"' (Option.mem_def.mpr hrl)
    rw [show (('"' :: rest).drop 1) = rest from rfl]
    rw [hsplit]

/-- C5 (amended): the string type accepts exactly the tokens delimited by a
matching pair of quote characters; parsing unescapes the first escaped
quote (not all of them) and formatting re-escapes the first quote, and on
every accepted token whose content is well escaped, format is a left
inverse of parse. -/
theorem claim5_string_type :
    (∀ tok : List Char, (stringTypeParse tok).isSome = true ↔
        (2 ≤ tok.length ∧ tok.head? = some '"' ∧ tok.getLast? = some '"')) ∧
    (∀ (tok v : List Char), stringTypeParse tok = some v →
      escWF ((tok.drop 1).dropLast) = true → stringTypeFormat v = tok) := by
  constructor
  · intro tok
    unfold stringTypeParse
    split
    · next h =>
        simp only [Option.isSome_some, true_iff]
        simpa [Bool.and_eq_true, decide_eq_true_eq, and_assoc] using h
    · next h =>
        simp only [Option.isSome_none, Bool.false_eq_true, false_iff]
        intro hcond
        exact h (by
          simp [Bool.and_eq_true, decide_eq_true_eq, hcond.1, hcond.2.1, hcond.2.2])
  · intro tok v hp hwf
    unfold stringTypeParse at hp
    split at hp
    · next h =>
        have hcond : 2 ≤ tok.length ∧ tok.head? = some '"' ∧ tok.getLast? = some '"' := by
          simpa [Bool.and_eq_true, decide_eq_true_eq, and_assoc] using h
        have hv : replFirst ['\\', '"'] ['"'] ((tok.drop 1).dropLast) = v :=
          Option.some.inj hp
        rcases escWF_decomp ((tok.drop 1).dropLast).length ((tok.drop 1).dropLast)
            le_rfl hwf with hq | ⟨a, b, ha, heq⟩
        · have hv2 : v = (tok.drop 1).dropLast := by
            rw [← hv, replFirst_esc_noQuote _ hq]
          unfold stringTypeFormat
          rw [hv2, replFirst_q_noQuote _ hq]
          exact (quoted_reassemble tok hcond.1 hcond.2.1 hcond.2.2).symm
        · have hv2 : v = a ++ '"' :: b := by
            rw [← hv, heq, replFirst_esc_at a ha b]
          unfold stringTypeFormat
          rw [hv2, replFirst_q_at a ha b, ← heq]
          exact (quoted_reassemble tok hcond.1 hcond.2.1 hcond.2.2).symm
    · exact absurd hp (by simp)

/-- Witness for C5 at the token "a\"b" (quote, a, backslash, quote, b,
quote): parsing yields the content with the quote unescaped and formatting
restores the original token. -/
theorem claim5_string_type_witness :
    stringTypeParse ['"', 'a', '\\', '"', 'b', '"'] = some ['a', '"', 'b'] ∧
    escWF ((['"', 'a', '\\', '"', 'b', '"'].drop 1).dropLast) = true ∧
    stringTypeFormat ['a', '"', 'b'] = ['"', 'a', '\\', '"', 'b', '"'] ∧
    (stringTypeParse ['"', 'a', '\\', '"', 'b', '"']).isSome = true ∧
    2 ≤ (['"', 'a', '\\', '"', 'b', '"'] : List Char).length :=
  ⟨rfl, rfl,
   claim5_string_type.2 ['"', 'a', '\\', '"', 'b', '"'] ['a', '"', 'b'] rfl rfl,
   (claim5_string_type.1 ['"', 'a', '\\', '"', 'b', '"']).mpr (by decide), by decide⟩

/-- C5 (counterexample): parsing does not unescape all escaped quotes — on
the token "a\"b\"c" (with two escaped quotes) only the first one is
unescaped, because String.prototype.replace with a string pattern replaces
a single occurrence. -/
theorem claim5_unescape_counterexample :
    stringTypeParse ['"', 'a', '\\', '"', 'b', '\\', '"', 'c', '"'] =
      some ['a', '"', 'b', '\\', '"', 'c'] ∧
    (['a', '"', 'b', '\\', '"', 'c'] : List Char) ≠ ['a', '"', 'b', '"', 'c'] :=
  ⟨rfl, by decide⟩

/-- Setting the element just after a prefix. -/
theorem list_set_append {α : Type} (acc : List α) (x y : α) (r : List α) :
    (acc ++ x :: r).set acc.length y = acc ++ y :: r := by
  induction acc with
  | nil => rfl
  | cons a acc ih =>
      show a :: (acc ++ x :: r).set acc.length y = a :: (acc ++ y :: r)
      rw [ih]

/-- Once the count has been zeroed by a failure, the forEach loop still
reduces every remaining element (appending their errors to the reject log)
but never fires resolve. -/
theorem reduceAllGo_dead (f : Nat) :
    ∀ (ps : List CalculatorTree) (idx : Nat) (count : Int)
      (values : List (Option CalculatorTree)) (log : RALog) (s : CalcState),
      count ≤ 0 →
      reduceAllGo f ps idx count values log s =
        (⟨log.resolves, log.rejects ++ errsOf (reduceResults f ps s).1⟩,
         (reduceResults f ps s).2) := by
  intro ps
  induction ps with
  | nil =>
      intro idx count values log s _
      simp [reduceAllGo, reduceResults, errsOf]
  | cons p ps ih =>
      intro idx count values log s hc
      cases h : reduceT f p s with
      | ok vs =>
          obtain ⟨v, s1⟩ := vs
          have hne : ¬ count = 1 := by omega
          simp only [reduceAllGo, h, hne, if_false, reduceResults, errsOf, List.filterMap_cons]
          rw [ih _ _ _ _ _ (by omega)]
          simp [errsOf]
      | error e =>
          simp only [reduceAllGo, h, reduceResults, errsOf, List.filterMap_cons]
          rw [ih _ _ _ _ _ (by omega)]
          simp [errsOf]

/-- With the count equal to the number of remaining elements (as at entry),
the forEach loop fires resolve exactly once — on the last element, with the
filled values array — when every element succeeds, and otherwise rejects
each error in order and never resolves. -/
theorem reduceAllGo_clean (f : Nat) :
    ∀ (ps : List CalculatorTree) (acc : List (Option CalculatorTree)) (log : RALog) (s : CalcState),
      ps ≠ [] →
      reduceAllGo f ps acc.length (ps.length : Int) (acc ++ List.replicate ps.length none) log s =
        (if errsOf (reduceResults f ps s).1 = []
         then (⟨log.resolves ++ [acc ++ okVals (reduceResults f ps s).1], log.rejects⟩,
               (reduceResults f ps s).2)
         else (⟨log.resolves, log.rejects ++ errsOf (reduceResults f ps s).1⟩,
               (reduceResults f ps s).2)) := by
  intro ps
  induction ps with
  | nil => intro acc log s h; exact absurd rfl h
  | cons p ps ih =>
      intro acc log s _
      cases h : reduceT f p s with
      | error e =>
          simp only [reduceAllGo, h]
          rw [reduceAllGo_dead f ps _ 0 _ _ _ le_rfl]
          simp only [reduceResults, h, errsOf, List.filterMap_cons]
          rw [if_neg (List.cons_ne_nil _ _)]
          simp [errsOf, List.append_assoc]
      | ok vs =>
          obtain ⟨v, s1⟩ := vs
          simp only [reduceAllGo, h, List.length_cons, List.replicate_succ]
          rw [list_set_append]
          cases ps with
          | nil =>
              have hone : ((0 : Nat) + 1 : Int) = 1 := by norm_num
              simp only [List.length_nil, List.replicate_zero, List.append_nil,
                Nat.cast_ofNat, hone, if_pos, reduceAllGo, reduceResults, h, errsOf,
                List.filterMap_cons, List.filterMap_nil, okVals, List.map_cons, List.map_nil]
              simp [if_pos, List.append_assoc]
          | cons q qs =>
              have hne : ¬ ((((q :: qs).length + 1 : Nat)) : Int) = 1 := by
                have h2 : 2 ≤ (q :: qs).length + 1 := by simp
                omega
              rw [if_neg hne]
              have hcnt : ((((q :: qs).length + 1 : Nat)) : Int) - 1 = (((q :: qs).length : Nat) : Int) := by
                push_cast
                ring
              have hvals : acc ++ some v :: List.replicate (q :: qs).length none =
                  (acc ++ [some v]) ++ List.replicate (q :: qs).length none := by
                simp
              have hidx : acc.length + 1 = (acc ++ [some v]).length := by simp
              rw [hcnt, hvals, hidx, ih (acc ++ [some v]) log s1 (List.cons_ne_nil _ _)]
              have hrr : reduceResults f (p :: q :: qs) s =
                  (.ok v :: (reduceResults f (q :: qs) s1).1, (reduceResults f (q :: qs) s1).2) := by
                simp [reduceResults, h]
              rw [hrr]
              simp only [errsOf, okVals, List.filterMap_cons, List.map_cons]
              split
              · simp [List.append_assoc]
              · simp [errsOf]

/-- C4 (amended): in reduceAll the first error wins only in the sense that
it reaches reject first: reject is invoked once per failing element (so
more than once when several elements fail), resolve is never invoked once
any element has rejected, and when no element fails resolve is invoked
exactly once, with all results in positional order.  An empty batch
resolves immediately with the empty array. -/
theorem claim4_reduceAll_log (f : Nat) (ps : List CalculatorTree) (s : CalcState) :
    (ps = [] → reduceAllLog f ps s = (⟨[[]], []⟩, s)) ∧
    (ps ≠ [] →
      (reduceAllLog f ps s).1.rejects = errsOf (reduceResults f ps s).1 ∧
      (reduceAllLog f ps s).2 = (reduceResults f ps s).2 ∧
      (errsOf (reduceResults f ps s).1 = [] →
        (reduceAllLog f ps s).1.resolves = [okVals (reduceResults f ps s).1]) ∧
      (errsOf (reduceResults f ps s).1 ≠ [] →
        (reduceAllLog f ps s).1.resolves = [])) := by
  constructor
  · intro he
    subst he
    rfl
  · intro hne
    have hlen : ¬ ps.length = 0 := by
      intro h0
      exact hne (List.length_eq_zero.mp h0)
    have hgo : reduceAllLog f ps s =
        reduceAllGo f ps 0 (ps.length : Int) (List.replicate ps.length none) ⟨[], []⟩ s := by
      simp [reduceAllLog, hlen]
    have hclean := reduceAllGo_clean f ps [] ⟨[], []⟩ s hne
    simp only [List.nil_append, List.length_nil] at hclean
    rw [hgo, hclean]
    by_cases herr : errsOf (reduceResults f ps s).1 = []
    · rw [if_pos herr]
      exact ⟨by simpa using herr.symm, rfl, fun _ => by simp, fun hc => absurd herr hc⟩
    · rw [if_neg herr]
      exact ⟨by simp, rfl, fun hc => absurd hc herr, fun _ => rfl⟩

/-- C4 (counterexample): a batch whose two elements both fail invokes
reject twice, not exactly once; resolve is still never invoked. -/
theorem claim4_reject_twice_counterexample :
    (reduceAllLog 1 [.invalid ['x'], .invalid ['y']] initState).1.rejects =
      ["Invalid tree node kind x", "Invalid tree node kind y"] ∧
    (reduceAllLog 1 [CalculatorTree.invalid ['x'], .invalid ['y']] initState).1.rejects.length ≠ 1 ∧
    (reduceAllLog 1 [CalculatorTree.invalid ['x'], .invalid ['y']] initState).1.resolves = [] :=
  ⟨rfl, by decide, rfl⟩

/-- Witness for C4: one failing element yields a single reject and no
resolve, and a fully successful singleton batch resolves once with its
value in place. -/
theorem claim4_reduceAll_log_witness :
    (reduceAllLog 1 [CalculatorTree.invalid ['z'],
        .constant .tInteger (.vNum 1) none] initState).1.rejects =
      ["Invalid tree node kind z"] ∧
    (reduceAllLog 1 [CalculatorTree.invalid ['z'],
        .constant .tInteger (.vNum 1) none] initState).1.resolves = [] ∧
    (reduceAllLog 2 [CalculatorTree.constant .tInteger (.vNum 1) none] initState).1.resolves =
      [[some (.constant .tInteger (.vNum 1) none)]] := by
  have h1 := (claim4_reduceAll_log 1
    [CalculatorTree.invalid ['z'], .constant .tInteger (.vNum 1) none] initState).2
    (List.cons_ne_nil _ _)
  have h2 := (claim4_reduceAll_log 2
    [CalculatorTree.constant .tInteger (.vNum 1) none] initState).2 (List.cons_ne_nil _ _)
  refine ⟨?_, ?_, ?_⟩
  · rw [h1.1]
    rfl
  · exact h1.2.2.2 (by
      rw [show errsOf (reduceResults 1 [CalculatorTree.invalid ['z'],
        .constant .tInteger (.vNum 1) none] initState).1 = ["Invalid tree node kind z"] from rfl]
      exact List.cons_ne_nil _ _)
  · rw [h2.2.2.1 rfl]
    rfl

/-- The step equation of firstOcc on a cons cell. -/
theorem firstOcc_cons (needle : List Char) (c : Char) (t : List Char) :
    firstOcc needle (c :: t) =
      (if needle.isPrefixOf (c :: t) = true then some 0
       else (firstOcc needle t).map (· + 1)) := rfl

/-- The index reported by firstOcc carries an occurrence. -/
theorem firstOcc_isPrefix : ∀ (hay needle : List Char) (i : Nat),
    firstOcc needle hay = some i → needle.isPrefixOf (hay.drop i) = true := by
  intro hay
  induction hay with
  | nil =>
      intro needle i h
      rcases needle with _ | ⟨a, as⟩
      · simp [List.isPrefixOf]
      · simp [firstOcc] at h
  | cons c t ih =>
      intro needle i h
      rw [firstOcc_cons] at h
      by_cases hp : needle.isPrefixOf (c :: t) = true
      · rw [if_pos hp] at h
        obtain rfl : (0 : Nat) = i := Option.some.inj h
        simpa using hp
      · rw [if_neg hp] at h
        cases hf : firstOcc needle t with
        | none => rw [hf] at h; simp at h
        | some k =>
            rw [hf] at h
            simp only [Option.map_some', Option.some.injEq] at h
            subst h
            rw [List.drop_succ_cons]
            exact ih needle k hf

/-- firstOcc reports the first occurrence: nothing matches earlier. -/
theorem firstOcc_min : ∀ (hay needle : List Char) (i : Nat),
    firstOcc needle hay = some i →
    ∀ j, j < i → needle.isPrefixOf (hay.drop j) = false := by
  intro hay
  induction hay with
  | nil =>
      intro needle i h j hj
      rcases needle with _ | ⟨a, as⟩
      · have h0 : firstOcc ([] : List Char) [] = some 0 := rfl
        rw [h0] at h
        have : (0 : Nat) = i := Option.some.inj h
        omega
      · simp [firstOcc] at h
  | cons c t ih =>
      intro needle i h j hj
      rw [firstOcc_cons] at h
      by_cases hp : needle.isPrefixOf (c :: t) = true
      · rw [if_pos hp] at h
        have : (0 : Nat) = i := Option.some.inj h
        omega
      · rw [if_neg hp] at h
        have hp2 : needle.isPrefixOf (c :: t) = false := by
          revert hp
          cases needle.isPrefixOf (c :: t) <;> simp
        cases hf : firstOcc needle t with
        | none => rw [hf] at h; simp at h
        | some k =>
            rw [hf] at h
            simp only [Option.map_some', Option.some.injEq] at h
            subst h
            cases j with
            | zero => simpa using hp2
            | succ j =>
                rw [List.drop_succ_cons]
                exact ih needle k hf j (by omega)

/-- When firstOcc reports nothing, the needle occurs nowhere. -/
theorem firstOcc_none : ∀ (hay needle : List Char),
    firstOcc needle hay = none →
    ∀ j, needle.isPrefixOf (hay.drop j) = false := by
  intro hay
  induction hay with
  | nil =>
      intro needle h j
      rcases needle with _ | ⟨a, as⟩
      · simp [firstOcc] at h
      · simp [List.drop_nil, List.isPrefixOf]
  | cons c t ih =>
      intro needle h j
      rw [firstOcc_cons] at h
      by_cases hp : needle.isPrefixOf (c :: t) = true
      · rw [if_pos hp] at h
        simp at h
      · rw [if_neg hp] at h
        have hp2 : needle.isPrefixOf (c :: t) = false := by
          revert hp
          cases needle.isPrefixOf (c :: t) <;> simp
        cases j with
        | zero => simpa using hp2
        | succ j =>
            rw [List.drop_succ_cons]
            cases hf : firstOcc needle t with
            | none => exact ih needle hf j
            | some k => rw [hf] at h; simp at h

/-- Any occurrence bounds firstOcc from above. -/
theorem firstOcc_le_of_occurs (hay needle : List Char) (m : Nat)
    (h : needle.isPrefixOf (hay.drop m) = true) :
    ∃ i, firstOcc needle hay = some i ∧ i ≤ m := by
  cases hf : firstOcc needle hay with
  | none => rw [firstOcc_none hay needle hf m] at h; exact Bool.noConfusion h
  | some i =>
      refine ⟨i, rfl, ?_⟩
      by_contra hmi
      push_neg at hmi
      rw [firstOcc_min hay needle i hf m hmi] at h
      exact Bool.noConfusion h

/-- indexOfFrom reports an occurrence at or after the start position. -/
theorem indexOfFrom_some (needle hay : List Char) (start p : Nat)
    (h : indexOfFrom needle hay start = some p) :
    start ≤ p ∧ needle.isPrefixOf (hay.drop p) = true := by
  unfold indexOfFrom at h
  cases hf : firstOcc needle (hay.drop start) with
  | none => rw [hf] at h; simp at h
  | some k =>
      rw [hf] at h
      simp only [Option.map_some', Option.some.injEq] at h
      subst h
      refine ⟨by omega, ?_⟩
      have := firstOcc_isPrefix _ _ _ hf
      rwa [List.drop_drop, Nat.add_comm] at this

/-- indexOfFrom reports the earliest occurrence at or after start. -/
theorem indexOfFrom_min (needle hay : List Char) (start p : Nat)
    (h : indexOfFrom needle hay start = some p) :
    ∀ j, start ≤ j → needle.isPrefixOf (hay.drop j) = true → p ≤ j := by
  intro j hsj hocc
  have hocc2 : needle.isPrefixOf ((hay.drop start).drop (j - start)) = true := by
    rw [List.drop_drop, Nat.add_sub_cancel' hsj]
    exact hocc
  unfold indexOfFrom at h
  cases hf : firstOcc needle (hay.drop start) with
  | none => rw [hf] at h; simp at h
  | some k =>
      rw [hf] at h
      simp only [Option.map_some', Option.some.injEq] at h
      subst h
      obtain ⟨i0, hi0, hle⟩ := firstOcc_le_of_occurs _ _ _ hocc2
      rw [hf] at hi0
      obtain rfl : k = i0 := Option.some.inj hi0
      omega

/-- When indexOfFrom reports nothing, there is no occurrence at or after
start. -/
theorem indexOfFrom_none (needle hay : List Char) (start : Nat)
    (h : indexOfFrom needle hay start = none) :
    ∀ j, start ≤ j → needle.isPrefixOf (hay.drop j) = false := by
  intro j hsj
  unfold indexOfFrom at h
  cases hf : firstOcc needle (hay.drop start) with
  | some k => rw [hf] at h; simp at h
  | none =>
      have := firstOcc_none _ _ hf (j - start)
      rwa [List.drop_drop, Nat.add_sub_cancel' hsj] at this

/-- One scan step preserves the loop invariant of next(): the accumulator
holds the earliest occurrence seen so far together with the longest length
among the separators seen that occur there. -/
theorem scanStep_spec (hay : List Char) (start : Nat) (acc : Option (Nat × Nat))
    (pre : List (List Char)) (sep : List Char)
    (h : (acc = none → ∀ q ∈ pre, indexOfFrom q hay start = none) ∧
      (∀ i L, acc = some (i, L) →
        (∃ q ∈ pre, indexOfFrom q hay start = some i ∧ q.length = L) ∧
        (∀ q ∈ pre, ∀ j, indexOfFrom q hay start = some j → i ≤ j) ∧
        (∀ q ∈ pre, indexOfFrom q hay start = some i → q.length ≤ L))) :
    (scanStep hay start acc sep = none →
      ∀ q ∈ pre ++ [sep], indexOfFrom q hay start = none) ∧
    (∀ i L, scanStep hay start acc sep = some (i, L) →
      (∃ q ∈ pre ++ [sep], indexOfFrom q hay start = some i ∧ q.length = L) ∧
      (∀ q ∈ pre ++ [sep], ∀ j, indexOfFrom q hay start = some j → i ≤ j) ∧
      (∀ q ∈ pre ++ [sep], indexOfFrom q hay start = some i → q.length ≤ L)) := by
  have memCase : ∀ (q : List Char), q ∈ pre ++ [sep] → q ∈ pre ∨ q = sep := by
    intro q hq
    rcases List.mem_append.mp hq with hq | hq
    · exact Or.inl hq
    · exact Or.inr (List.mem_singleton.mp hq)
  cases hidx : indexOfFrom sep hay start with
  | none =>
      have hstep : scanStep hay start acc sep = acc := by
        unfold scanStep
        rw [hidx]
      rw [hstep]
      constructor
      · intro hnone q hq
        rcases memCase q hq with hq | rfl
        · exact h.1 hnone q hq
        · exact hidx
      · intro i L hacc
        obtain ⟨⟨q0, hq0, hq0i, hq0l⟩, hmin, hmax⟩ := h.2 i L hacc
        refine ⟨⟨q0, List.mem_append_left _ hq0, hq0i, hq0l⟩, ?_, ?_⟩
        · intro q hq j hj
          rcases memCase q hq with hq | rfl
          · exact hmin q hq j hj
          · rw [hidx] at hj
            exact absurd hj (by simp)
        · intro q hq hqi
          rcases memCase q hq with hq | rfl
          · exact hmax q hq hqi
          · rw [hidx] at hqi
            exact absurd hqi (by simp)
  | some p =>
      cases acc with
      | none =>
          have hstep : scanStep hay start none sep = some (p, sep.length) := by
            unfold scanStep
            rw [hidx]
          rw [hstep]
          constructor
          · intro hno
            exact absurd hno (by simp)
          · intro i L hacc
            obtain ⟨rfl, rfl⟩ : p = i ∧ sep.length = L := by
              have := Option.some.inj hacc
              exact ⟨congrArg Prod.fst this, congrArg Prod.snd this⟩
            refine ⟨⟨sep, List.mem_append_right _ (List.mem_singleton.mpr rfl), hidx, rfl⟩, ?_, ?_⟩
            · intro q hq j hj
              rcases memCase q hq with hq | rfl
              · rw [h.1 rfl q hq] at hj
                exact absurd hj (by simp)
              · obtain rfl : p = j := Option.some.inj (hidx.symm.trans hj)
                exact le_rfl
            · intro q hq hqi
              rcases memCase q hq with hq | rfl
              · rw [h.1 rfl q hq] at hqi
                exact absurd hqi (by simp)
              · exact le_rfl
      | some il =>
          obtain ⟨i0, l0⟩ := il
          obtain ⟨⟨q0, hq0, hq0i, hq0l⟩, hmin, hmax⟩ := h.2 i0 l0 rfl
          by_cases hgt : i0 > p
          · have hstep : scanStep hay start (some (i0, l0)) sep = some (p, sep.length) := by
              unfold scanStep
              rw [hidx]
              simp [hgt]
            rw [hstep]
            constructor
            · intro hno
              exact absurd hno (by simp)
            · intro i L hacc
              obtain ⟨rfl, rfl⟩ : p = i ∧ sep.length = L := by
                have := Option.some.inj hacc
                exact ⟨congrArg Prod.fst this, congrArg Prod.snd this⟩
              refine ⟨⟨sep, List.mem_append_right _ (List.mem_singleton.mpr rfl), hidx, rfl⟩, ?_, ?_⟩
              · intro q hq j hj
                rcases memCase q hq with hq | rfl
                · have := hmin q hq j hj
                  omega
                · obtain rfl : p = j := Option.some.inj (hidx.symm.trans hj)
                  exact le_rfl
              · intro q hq hqi
                rcases memCase q hq with hq | rfl
                · have := hmin q hq p hqi
                  omega
                · exact le_rfl
          · by_cases heq : i0 = p
            · subst heq
              have hstep : scanStep hay start (some (i0, l0)) sep = some (i0, max l0 sep.length) := by
                unfold scanStep
                rw [hidx]
                simp [hgt]
              rw [hstep]
              constructor
              · intro hno
                exact absurd hno (by simp)
              · intro i L hacc
                obtain ⟨rfl, rfl⟩ : i0 = i ∧ max l0 sep.length = L := by
                  have := Option.some.inj hacc
                  exact ⟨congrArg Prod.fst this, congrArg Prod.snd this⟩
                refine ⟨?_, ?_, ?_⟩
                · rcases Nat.le_total sep.length l0 with hle | hle
                  · exact ⟨q0, List.mem_append_left _ hq0, hq0i,
                      by rw [hq0l]; omega⟩
                  · exact ⟨sep, List.mem_append_right _ (List.mem_singleton.mpr rfl), hidx,
                      by omega⟩
                · intro q hq j hj
                  rcases memCase q hq with hq | rfl
                  · exact hmin q hq j hj
                  · obtain rfl : i0 = j := Option.some.inj (hidx.symm.trans hj)
                    exact le_rfl
                · intro q hq hqi
                  rcases memCase q hq with hq | rfl
                  · have := hmax q hq hqi
                    omega
                  · omega
            · have hstep : scanStep hay start (some (i0, l0)) sep = some (i0, l0) := by
                unfold scanStep
                rw [hidx]
                simp [hgt, heq]
              rw [hstep]
              constructor
              · intro hno
                exact absurd hno (by simp)
              · intro i L hacc
                obtain ⟨rfl, rfl⟩ : i0 = i ∧ l0 = L := by
                  have := Option.some.inj hacc
                  exact ⟨congrArg Prod.fst this, congrArg Prod.snd this⟩
                refine ⟨⟨q0, List.mem_append_left _ hq0, hq0i, hq0l⟩, ?_, ?_⟩
                · intro q hq j hj
                  rcases memCase q hq with hq | rfl
                  · exact hmin q hq j hj
                  · obtain rfl : p = j := Option.some.inj (hidx.symm.trans hj)
                    omega
                · intro q hq hqi
                  rcases memCase q hq with hq | rfl
                  · exact hmax q hq hqi
                  · obtain rfl : p = i0 := Option.some.inj (hidx.symm.trans hqi)
                    omega

/-- The separator scan of next() computes the earliest occurrence at or
after the start position among all separators, with the longest separator
length among those occurring at that earliest position. -/
theorem scanSeps_spec (hay : List Char) (start : Nat) :
    ∀ (seps : List (List Char)) (acc : Option (Nat × Nat)) (pre : List (List Char)),
      ((acc = none → ∀ q ∈ pre, indexOfFrom q hay start = none) ∧
       (∀ i L, acc = some (i, L) →
         (∃ q ∈ pre, indexOfFrom q hay start = some i ∧ q.length = L) ∧
         (∀ q ∈ pre, ∀ j, indexOfFrom q hay start = some j → i ≤ j) ∧
         (∀ q ∈ pre, indexOfFrom q hay start = some i → q.length ≤ L))) →
      ((seps.foldl (scanStep hay start) acc = none →
        ∀ q ∈ pre ++ seps, indexOfFrom q hay start = none) ∧
       (∀ i L, seps.foldl (scanStep hay start) acc = some (i, L) →
         (∃ q ∈ pre ++ seps, indexOfFrom q hay start = some i ∧ q.length = L) ∧
         (∀ q ∈ pre ++ seps, ∀ j, indexOfFrom q hay start = some j → i ≤ j) ∧
         (∀ q ∈ pre ++ seps, indexOfFrom q hay start = some i → q.length ≤ L))) := by
  intro seps
  induction seps with
  | nil =>
      intro acc pre h
      simpa using h
  | cons sep seps ih =>
      intro acc pre h
      have hstep := scanStep_spec hay start acc pre sep h
      have := ih (scanStep hay start acc sep) (pre ++ [sep]) hstep
      simpa [List.append_assoc] using this

/-- C7: for any position inside the formula (not opening a string), the
separator scan of next() finds, among all registered separators, the one
with the earliest occurrence at or after the current position; among
separators occurring at that same earliest position the reported length is
the longest one; and next() returns that separator itself when it starts
at the current position, or the trimmed substring up to it otherwise. -/
theorem claim7_tokenizer_scan (formula : List Char) (pos i L : Nat)
    (hscan : scanSeps calcSeparators formula pos = some (i, L)) :
    pos ≤ i ∧
    (∃ sep ∈ calcSeparators, occursAtB sep formula i = true ∧ sep.length = L) ∧
    (∀ sep ∈ calcSeparators, ∀ j, pos ≤ j → occursAtB sep formula j = true → i ≤ j) ∧
    (∀ sep ∈ calcSeparators, occursAtB sep formula i = true → sep.length ≤ L) ∧
    (pos < formula.length → (formula.drop pos).head? ≠ some '"' →
      pNext ⟨formula, pos⟩ =
        .ok (if i = pos then (formula.drop pos).take L
             else jsTrim ((formula.drop pos).take (i - pos)))) := by
  have hinv : (((none : Option (Nat × Nat)) = none →
        ∀ q ∈ ([] : List (List Char)), indexOfFrom q formula pos = none) ∧
      (∀ i2 L2, (none : Option (Nat × Nat)) = some (i2, L2) →
        (∃ q ∈ ([] : List (List Char)), indexOfFrom q formula pos = some i2 ∧ q.length = L2) ∧
        (∀ q ∈ ([] : List (List Char)), ∀ j, indexOfFrom q formula pos = some j → i2 ≤ j) ∧
        (∀ q ∈ ([] : List (List Char)), indexOfFrom q formula pos = some i2 → q.length ≤ L2))) :=
    ⟨fun _ q hq => absurd hq (List.not_mem_nil q), fun _ _ hh => absurd hh (by simp)⟩
  have hfold : calcSeparators.foldl (scanStep formula pos) none = some (i, L) := hscan
  have hspec := (scanSeps_spec formula pos calcSeparators none [] hinv).2 i L hfold
  rw [List.nil_append] at hspec
  obtain ⟨⟨q0, hq0m, hq0i, hq0l⟩, hmin, hmax⟩ := hspec
  have hq0occ := indexOfFrom_some q0 formula pos i hq0i
  refine ⟨hq0occ.1, ⟨q0, hq0m, hq0occ.2, hq0l⟩, ?_, ?_, ?_⟩
  · intro sep hm j hpj hocc
    unfold occursAtB at hocc
    cases hidx : indexOfFrom sep formula pos with
    | none =>
        rw [indexOfFrom_none sep formula pos hidx j hpj] at hocc
        exact Bool.noConfusion hocc
    | some j2 =>
        have h1 := hmin sep hm j2 hidx
        have h2 := indexOfFrom_min sep formula pos j2 hidx j hpj hocc
        omega
  · intro sep hm hocc
    unfold occursAtB at hocc
    cases hidx : indexOfFrom sep formula pos with
    | none =>
        rw [indexOfFrom_none sep formula pos hidx i hq0occ.1] at hocc
        exact Bool.noConfusion hocc
    | some j2 =>
        have h1 := hmin sep hm j2 hidx
        have h2 := indexOfFrom_min sep formula pos j2 hidx i hq0occ.1 hocc
        obtain rfl : j2 = i := by omega
        exact hmax sep hm hidx
  · intro hlt hq
    unfold pNext
    rw [if_neg (by omega : ¬ pos > formula.length), if_neg (by omega : ¬ pos = formula.length),
      if_neg hq, hscan]
    split
    · rename_i heq
      exact absurd heq (by simp)
    · rename_i i2 L2 heq
      have hpair := Option.some.inj heq
      obtain ⟨rfl, rfl⟩ : i = i2 ∧ L = L2 :=
        ⟨congrArg Prod.fst hpair, congrArg Prod.snd hpair⟩
      split <;> rfl

/-- Witness for C7 on the formula a>>>1 at position 1: the scan reports
position 1 with length 3 (the three separators >, >> and >>> all occur
there and the longest wins), next() returns the >>> token, and the shorter
tied separator >> is indeed bounded by the reported length. -/
theorem claim7_tokenizer_scan_witness :
    scanSeps calcSeparators ("a>>>1".toList) 1 = some (1, 3) ∧
    pNext ⟨"a>>>1".toList, 1⟩ = .ok (">>>".toList) ∧
    (">>".toList).length ≤ 3 ∧
    (1 : Nat) ≤ 1 := by
  have h := claim7_tokenizer_scan ("a>>>1".toList) 1 1 3 rfl
  refine ⟨rfl, ?_, ?_, le_rfl⟩
  · have h5 := h.2.2.2.2 (by decide) (by decide)
    rw [h5, if_pos rfl]
    rfl
  · exact h.2.2.2.1 (">>".toList) (by decide) (by decide)
